import Mathlib

set_option maxRecDepth 100000

/-!
# Decision Gate Python evidence provider — formal model

Shallow embedding of `decision-gate-provider-sdk/python/provider.py`:
the Content-Length frame codec (`read_frame`, `discard_bytes`,
`write_frame`), the JSON-RPC message parser (`parse_request`), the
request dispatcher (`handle_request`, `handle_tool_call`), the evidence
handler (`handle_evidence_query`) and the stdio session loop (`main`).

Byte streams are `List Nat` (each element a byte value).  Python `dict`
values appearing in JSON positions are modelled by the inductive type
`Json`; Python's dynamic failures (`TypeError`, `AttributeError`) that
the provider code can raise on hostile input are modelled explicitly
with `Except PyExc`.

Model restrictions (documented where used): JSON numbers are modelled as
integers (fractional/exponent literals and float formatting would need
floating point); `int()` parsing does not model underscore digit
separators; JSON string escapes that would denote lone UTF-16 surrogates
are rejected (they have no counterpart in Lean's `Char`).
-/

namespace Provider

/-- JSON values as produced by Python's `json` module (numbers restricted
to integers; objects are ordered key/value lists, as Python dicts are). -/
inductive Json where
  | null : Json
  | bool (b : Bool) : Json
  | num (n : Int) : Json
  | str (s : String) : Json
  | arr (xs : List Json) : Json
  | obj (fields : List (String × Json)) : Json

/-- The field list of a Python dict holding JSON data. -/
abbrev ObjFields := List (String × Json)

/-- Python dynamic exceptions the provider code can raise. -/
inductive PyExc where
  | typeError : PyExc
  | attributeError : PyExc
deriving DecidableEq

/-- Python `==` against a string literal: only a string of the same
characters compares equal (no Python value of another type equals a
`str`). -/
def isStrVal (x : Json) (s : String) : Bool :=
  match x with
  | Json.str t => t = s
  | _ => false

/-- `d.get(key)`: first binding of `key` in a dict's field list (Python
dicts have unique keys, so the direction of the scan is immaterial). -/
def objGet (fields : ObjFields) (key : String) : Option Json :=
  match fields with
  | [] => none
  | (k, v) :: rest => if k = key then some v else objGet rest key

/-- `d.get(key)` where a missing key yields Python `None` (JSON null). -/
def objGetD (fields : ObjFields) (key : String) : Json :=
  (objGet fields key).getD Json.null

/-- Whether a dict has a binding for `key` (`key in d`). -/
def hasKey (fields : ObjFields) (key : String) : Bool :=
  match fields with
  | [] => false
  | (k, _) :: rest => k = key || hasKey rest key

/-- Python truthiness of a JSON value (`bool(x)`): `None`, `False`, `0`,
`""`, `[]` and `{}` are falsy, everything else truthy. -/
def truthy : Json → Bool
  | Json.null => false
  | Json.bool b => b
  | Json.num n => n ≠ 0
  | Json.str s => s ≠ ""
  | Json.arr xs => !xs.isEmpty
  | Json.obj fields => !fields.isEmpty

/-- Whether a JSON value is an object (`isinstance(x, dict)`). -/
def Json.isObj : Json → Bool
  | Json.obj _ => true
  | _ => false

/-- The field list of an object value (only used under `isObj`). -/
def Json.fieldsOf : Json → ObjFields
  | Json.obj fields => fields
  | _ => []

/-- `key in x` for an arbitrary Python value: dict membership tests keys,
string membership tests substrings, list membership tests elements;
`in` on `None`, booleans and numbers raises `TypeError`. -/
def pyContains (key : String) : Json → Except PyExc Bool
  | Json.obj fields => Except.ok (hasKey fields key)
  | Json.str s => Except.ok (key = "" || (s.splitOn key).length > 1)
  | Json.arr xs => Except.ok (xs.any (fun x => isStrVal x key))
  | Json.null => Except.error PyExc.typeError
  | Json.bool _ => Except.error PyExc.typeError
  | Json.num _ => Except.error PyExc.typeError

/-- `x.get(key)`: only dicts have a `get` attribute; every other value
raises `AttributeError`. A missing key yields Python `None`. -/
def pyGet (x : Json) (key : String) : Except PyExc Json :=
  match x with
  | Json.obj fields => Except.ok (objGetD fields key)
  | _ => Except.error PyExc.attributeError

/-- `x[key]` with a string key: dict indexing; other receivers raise
`TypeError` (only reached on dicts in this program). -/
def pyIndex (x : Json) (key : String) : Except PyExc Json :=
  match x with
  | Json.obj fields => Except.ok (objGetD fields key)
  | _ => Except.error PyExc.typeError

/-- Python `str(x)` as used on the `error` field in `handle_tool_call`.
Only the string case is reachable there (the handler's error values are
strings or `None`, and `None` is filtered out by truthiness); the other
cases give Python's textual forms for completeness. -/
def pyStr : Json → String
  | Json.str s => s
  | Json.null => "None"
  | Json.bool true => "True"
  | Json.bool false => "False"
  | Json.num n => toString n
  | Json.arr _ => "<list>"
  | Json.obj _ => "<dict>"

/-- `TOOL_LIST_RESULT` from provider.py. -/
def TOOL_LIST_RESULT : Json :=
  Json.obj [("tools", Json.arr [Json.obj
    [("name", Json.str "evidence_query"),
     ("description", Json.str "Resolve a Decision Gate evidence query."),
     ("input_schema", Json.obj [("type", Json.str "object")])]])]

/-- `build_error_response(request_id, code, message)`. -/
def build_error_response (request_id : Json) (code : Int) (message : String) : Json :=
  Json.obj [("jsonrpc", Json.str "2.0"), ("id", request_id),
    ("error", Json.obj [("code", Json.num code), ("message", Json.str message)])]

/-- `handle_evidence_query(query, _context)`: extract `query.params`
(falsy or missing becomes `{}`), require a `value` key, honour the
forced-error input, else build the full EvidenceResult.  The membership
test and attribute accesses can raise on non-dict `params`, which the
model propagates as `Except.error`. -/
def handle_evidence_query (query : Json) (_context : Json) : Except PyExc Json := do
  let params :=
    match objGet query.fieldsOf "params" with
    | some v => if truthy v then v else Json.obj []
    | none => Json.obj []
  let mem ← pyContains "value" params
  if !mem then
    return Json.obj [("error", Json.str "params.value is required")]
  let v ← pyGet params "value"
  if isStrVal v "error" then
    return Json.obj [("error", Json.str "forced error")]
  let value ← pyIndex params "value"
  return Json.obj
    [("value", Json.obj [("kind", Json.str "json"), ("value", value)]),
     ("lane", Json.str "verified"),
     ("error", Json.null),
     ("evidence_hash", Json.null),
     ("evidence_ref", Json.null),
     ("evidence_anchor", Json.null),
     ("signature", Json.null),
     ("content_type", Json.str "application/json")]

/-- `handle_tool_call(request)`: validate params shape, run the evidence
handler, and turn a truthy `error` field into a JSON-RPC `-32000` error. -/
def handle_tool_call (request : ObjFields) : Except PyExc Json := do
  let rid := objGetD request "id"
  let params := objGetD request "params"
  if !params.isObj then
    return build_error_response rid (-32602) "invalid tool params"
  if !isStrVal (objGetD params.fieldsOf "name") "evidence_query" then
    return build_error_response rid (-32602) "invalid tool params"
  let arguments := objGetD params.fieldsOf "arguments"
  if !arguments.isObj then
    return build_error_response rid (-32602) "invalid tool params"
  let query := objGetD arguments.fieldsOf "query"
  let context := objGetD arguments.fieldsOf "context"
  if !(query.isObj && context.isObj) then
    return build_error_response rid (-32602) "missing query or context"
  let result ← handle_evidence_query query context
  let error :=
    match objGet result.fieldsOf "error" with
    | some v => if truthy v then some v else none
    | none => none
  match error with
  | some e => return build_error_response rid (-32000) (pyStr e)
  | none =>
    return Json.obj [("jsonrpc", Json.str "2.0"), ("id", rid),
      ("result", Json.obj [("content",
        Json.arr [Json.obj [("type", Json.str "json"), ("json", result)]])])]

/-- `handle_request(request)`: version check, then method dispatch. -/
def handle_request (request : ObjFields) : Except PyExc Json := do
  if !isStrVal (objGetD request "jsonrpc") "2.0" then
    return build_error_response (objGetD request "id") (-32600) "invalid json-rpc version"
  let method := objGetD request "method"
  if isStrVal method "tools/list" then
    return Json.obj [("jsonrpc", Json.str "2.0"), ("id", objGetD request "id"),
      ("result", TOOL_LIST_RESULT)]
  if isStrVal method "tools/call" then
    handle_tool_call request
  else
    return build_error_response (objGetD request "id") (-32601) "method not found"

/-! ## Frame codec (read side)

Streams are byte lists.  `BytesIO.readline` returns chunks ending in a
`\n` byte (10), then the unterminated tail, then `b""` forever; the
model precomputes that chunk list with `splitLines` and runs the header
loop of `read_frame` over it. -/

/-- Bytes of an ASCII string literal (wire-format text). -/
def strBytes (s : String) : List Nat := s.toList.map Char.toNat

def MAX_HEADER_BYTES : Nat := 8 * 1024
def MAX_BODY_BYTES : Nat := 1024 * 1024
def DISCARD_CHUNK_BYTES : Nat := 8 * 1024

/-- The successive results of `stream.readline()`: maximal chunks ending
in byte 10, with a final unterminated chunk when the stream does not end
in a newline. -/
def splitLines : List Nat → List (List Nat)
  | [] => []
  | b :: rest =>
    if b = 10 then [10] :: splitLines rest
    else
      match splitLines rest with
      | [] => [[b]]
      | l :: ls => (b :: l) :: ls

/-- ASCII lowercasing of one byte (`bytes.lower`). -/
def asciiLower (b : Nat) : Nat := if 65 ≤ b ∧ b ≤ 90 then b + 32 else b

/-- Bytes after the first `:` (Python `line.split(b":", 1)[1]`; only used
when a colon is present). -/
def afterColon : List Nat → List Nat
  | [] => []
  | b :: rest => if b = 58 then rest else afterColon rest

/-- Python whitespace bytes stripped by `bytes.strip()`. -/
def isPySpace (b : Nat) : Bool :=
  b = 32 || b = 9 || b = 10 || b = 13 || b = 11 || b = 12

/-- `bytes.strip()`. -/
def stripBytes (l : List Nat) : List Nat :=
  ((l.dropWhile isPySpace).reverse.dropWhile isPySpace).reverse

/-- Decimal digit run to a number; `none` unless the run is nonempty and
all digits. -/
def natOfDigitsAux : List Nat → Nat → Option Nat
  | [], acc => some acc
  | b :: rest, acc =>
    if 48 ≤ b ∧ b ≤ 57 then natOfDigitsAux rest (acc * 10 + (b - 48)) else none

def natOfDigits : List Nat → Option Nat
  | [] => none
  | l => natOfDigitsAux l 0

/-- Python `int()` on stripped bytes: optional sign then decimal digits
(underscore digit separators are not modelled). -/
def pyInt (l : List Nat) : Option Int :=
  match l with
  | [] => none
  | b :: rest =>
    if b = 43 then (natOfDigits rest).map Int.ofNat
    else if b = 45 then (natOfDigits rest).map (fun n => -(n : Int))
    else (natOfDigits (b :: rest)).map Int.ofNat

/-- Outcome of `read_frame`: a payload, Python `None` (end of stream), or
a raised `FrameError` with its `fatal` flag. -/
inductive FrameOutcome where
  | frame (payload : List Nat) : FrameOutcome
  | eof : FrameOutcome
  | err (message : String) (fatal : Bool) : FrameOutcome

/-- Result of the header loop of `read_frame`. -/
inductive HeaderResult where
  | eof : HeaderResult
  | fatalErr (message : String) (restLines : List (List Nat)) : HeaderResult
  | blank (contentLength : Option Int) (restLines : List (List Nat)) : HeaderResult

/-- The header loop of `read_frame`, over the stream's readline chunks:
stop at end of stream (`None`), enforce `MAX_HEADER_BYTES`, stop at a
blank line, and parse any `Content-Length` header (case-insensitively),
the last occurrence winning. -/
def headerLoop : List (List Nat) → Option Int → Nat → HeaderResult
  | [], _, _ => HeaderResult.eof
  | line :: rest, cl, headerBytes =>
    let headerBytes := headerBytes + line.length
    if headerBytes > MAX_HEADER_BYTES then
      HeaderResult.fatalErr "headers too large" rest
    else if line = [13, 10] || line = [10] then
      HeaderResult.blank cl rest
    else if (strBytes "content-length:").isPrefixOf (line.map asciiLower) then
      match pyInt (stripBytes (afterColon line)) with
      | some n => headerLoop rest (some n) headerBytes
      | none => HeaderResult.fatalErr "invalid content length" rest
    else
      headerLoop rest cl headerBytes

/-- `discard_bytes` body: repeatedly read `min(remaining, 8 KiB)` bytes;
an empty read means end of stream (`none` models the raised
`FrameError("unexpected eof", fatal)`).  The fuel argument only bounds
the recursion; `remaining` initial fuel always suffices since every
iteration consumes at least one byte. -/
def discardAux : Nat → Nat → List Nat → Option (List Nat)
  | _, 0, s => some s
  | 0, _ + 1, _ => none
  | fuel + 1, remaining, s =>
    let chunk := s.take (min remaining DISCARD_CHUNK_BYTES)
    if chunk.isEmpty then none
    else discardAux fuel (remaining - chunk.length) (s.drop chunk.length)

/-- `discard_bytes(stream, count)`: `some rest` on success, `none` when
the stream ends first (the raised fatal `FrameError`). -/
def discard_bytes (s : List Nat) (count : Nat) : Option (List Nat) :=
  discardAux count count s

/-- `read_frame(stream)`: returns the outcome together with the bytes
left unconsumed in the stream. -/
def read_frame (s : List Nat) : FrameOutcome × List Nat :=
  match headerLoop (splitLines s) none 0 with
  | HeaderResult.eof => (FrameOutcome.eof, [])
  | HeaderResult.fatalErr msg restLines => (FrameOutcome.err msg true, restLines.flatten)
  | HeaderResult.blank cl restLines =>
    let rest := restLines.flatten
    match cl with
    | none => (FrameOutcome.err "missing content length" true, rest)
    | some n =>
      if n ≤ 0 then (FrameOutcome.err "invalid content length" true, rest)
      else if n > (MAX_BODY_BYTES : Int) then
        match discard_bytes rest n.toNat with
        | none => (FrameOutcome.err "unexpected eof" true, [])
        | some rest2 => (FrameOutcome.err "payload too large" false, rest2)
      else
        let payload := rest.take n.toNat
        if payload.length ≠ n.toNat then (FrameOutcome.err "unexpected eof" true, [])
        else (FrameOutcome.frame payload, rest.drop n.toNat)

/-! ## UTF-8 codec

`payload.decode("utf-8")` and `str.encode("utf-8")`, on code points. -/

/-- UTF-8 encoding of one Unicode scalar value given as a code point. -/
def utf8EncodeChar (c : Nat) : List Nat :=
  if c < 128 then [c]
  else if c < 2048 then [192 + c / 64, 128 + c % 64]
  else if c < 65536 then [224 + c / 4096, 128 + c / 64 % 64, 128 + c % 64]
  else [240 + c / 262144, 128 + c / 4096 % 64, 128 + c / 64 % 64, 128 + c % 64]

/-- `str.encode("utf-8")`. -/
def utf8Encode (s : List Char) : List Nat :=
  (s.map (fun c => utf8EncodeChar c.toNat)).flatten

/-- Whether a byte is a UTF-8 continuation byte. -/
def isCont (b : Nat) : Bool := 128 ≤ b && b < 192

/-- Decode one UTF-8 sequence into a code point plus the remaining bytes.
Strict, like `bytes.decode("utf-8")`: out-of-range continuation bytes,
overlong encodings, surrogates and values above U+10FFFF are rejected. -/
def utf8DecodeOne : List Nat → Option (Nat × List Nat)
  | [] => none
  | b0 :: rest =>
    if b0 < 128 then some (b0, rest)
    else if b0 < 194 then none
    else if b0 < 224 then
      match rest with
      | b1 :: r => if isCont b1 then some ((b0 - 192) * 64 + (b1 - 128), r) else none
      | [] => none
    else if b0 < 240 then
      match rest with
      | b1 :: b2 :: r =>
        if isCont b1 && isCont b2 then
          let c := (b0 - 224) * 4096 + (b1 - 128) * 64 + (b2 - 128)
          if c < 2048 || (55296 ≤ c && c < 57344) then none else some (c, r)
        else none
      | _ => none
    else if b0 < 245 then
      match rest with
      | b1 :: b2 :: b3 :: r =>
        if isCont b1 && isCont b2 && isCont b3 then
          let c := (b0 - 240) * 262144 + (b1 - 128) * 4096 + (b2 - 128) * 64 + (b3 - 128)
          if c < 65536 || 1114112 ≤ c then none else some (c, r)
        else none
      | _ => none
    else none

/-- Decoding loop; the fuel (initially the byte count) only bounds the
recursion, since every step consumes at least one byte. -/
def utf8DecodeAux : Nat → List Nat → Option (List Char)
  | _, [] => some []
  | 0, _ :: _ => none
  | fuel + 1, l =>
    match utf8DecodeOne l with
    | none => none
    | some (c, r) => (utf8DecodeAux fuel r).map (fun cs => Char.ofNat c :: cs)

/-- `payload.decode("utf-8")`: all characters, or `none` on the first
invalid sequence (the raised `UnicodeDecodeError`). -/
def utf8Decode (l : List Nat) : Option (List Char) :=
  utf8DecodeAux l.length l

/-! ## JSON serialization (`json.dumps` with default options)

Default separators `", "` / `": "` and `ensure_ascii=True`: characters
outside printable ASCII are emitted as `\uXXXX` escapes, with surrogate
pairs for code points above U+FFFF.  Model restriction: numbers are
integers (`str(float)` would need IEEE-754 formatting). -/

/-- Lowercase hex digit of a value below 16. -/
def hexDigit (n : Nat) : Char :=
  if n < 10 then Char.ofNat (48 + n) else Char.ofNat (87 + n)

/-- A `\uXXXX` escape for a code unit below 0x10000. -/
def uEscape (n : Nat) : List Char :=
  ['\\', 'u', hexDigit (n / 4096 % 16), hexDigit (n / 256 % 16),
   hexDigit (n / 16 % 16), hexDigit (n % 16)]

/-- `json.dumps` escaping of one character (`ensure_ascii=True`). -/
def escapeChar (c : Char) : List Char :=
  let n := c.toNat
  if n = 34 then ['\\', '"']
  else if n = 92 then ['\\', '\\']
  else if n = 10 then ['\\', 'n']
  else if n = 13 then ['\\', 'r']
  else if n = 9 then ['\\', 't']
  else if n = 8 then ['\\', 'b']
  else if n = 12 then ['\\', 'f']
  else if 32 ≤ n && n ≤ 126 then [c]
  else if n < 65536 then uEscape n
  else uEscape (55296 + (n - 65536) / 1024) ++ uEscape (56320 + (n - 65536) % 1024)

/-- A JSON string literal for `s`. -/
def dumpString (s : List Char) : List Char :=
  '"' :: (s.map escapeChar).flatten ++ ['"']

/-- Decimal digits of a natural number, most significant first.  The
fuel (initially `n + 1`) only bounds the recursion; a number has at most
`n + 1` digits. -/
def natDigitsAux : Nat → Nat → List Char → List Char
  | 0, _, acc => acc
  | fuel + 1, n, acc =>
    let acc := Char.ofNat (48 + n % 10) :: acc
    if n < 10 then acc else natDigitsAux fuel (n / 10) acc

def natDigits (n : Nat) : List Char := natDigitsAux (n + 1) n []

/-- Python `str()` of an integer. -/
def intRepr (i : Int) : List Char :=
  if i < 0 then '-' :: natDigits (-i).toNat else natDigits i.toNat

mutual
/-- `json.dumps(v)` (default options), as characters. -/
def dumps : Json → List Char
  | Json.null => ['n', 'u', 'l', 'l']
  | Json.bool true => ['t', 'r', 'u', 'e']
  | Json.bool false => ['f', 'a', 'l', 's', 'e']
  | Json.num n => intRepr n
  | Json.str s => dumpString s.toList
  | Json.arr xs => '[' :: dumpsElems xs ++ [']']
  | Json.obj fs => '{' :: dumpsFields fs ++ ['}']

/-- Array elements joined by `", "`. -/
def dumpsElems : List Json → List Char
  | [] => []
  | x :: xs =>
    dumps x ++ (match xs with | [] => [] | _ :: _ => [',', ' ']) ++ dumpsElems xs

/-- Object members `"key": value` joined by `", "`. -/
def dumpsFields : List (String × Json) → List Char
  | [] => []
  | (k, v) :: fs =>
    dumpString k.toList ++ [':', ' '] ++ dumps v ++
      (match fs with | [] => [] | _ :: _ => [',', ' ']) ++ dumpsFields fs
end

/-! ## JSON parsing (`json.loads`)

Recursive descent with the standard JSON grammar, strict mode: raw
control characters in strings are rejected, objects take the last value
for a duplicated key (at the first occurrence's position, as `dict`
insertion does).  Model restrictions: fractional/exponent number
literals and escapes denoting lone UTF-16 surrogates are rejected. -/

/-- JSON insignificant whitespace. -/
def skipWs (l : List Char) : List Char :=
  l.dropWhile (fun c => c = ' ' || c = '\t' || c = '\n' || c = '\r')

/-- Value of a hex digit (both cases, as `json.loads` accepts). -/
def parseHexDigit (c : Char) : Option Nat :=
  let n := c.toNat
  if 48 ≤ n && n ≤ 57 then some (n - 48)
  else if 97 ≤ n && n ≤ 102 then some (n - 87)
  else if 65 ≤ n && n ≤ 70 then some (n - 55)
  else none

/-- Value of a 4-digit hex escape payload. -/
def hex4 (h1 h2 h3 h4 : Char) : Option Nat := do
  let a ← parseHexDigit h1
  let b ← parseHexDigit h2
  let c ← parseHexDigit h3
  let d ← parseHexDigit h4
  return a * 4096 + b * 256 + c * 16 + d

/-- The continuation of a `\\uXXXX` escape whose value `hi` is a high
surrogate: only a following `\\uXXXX` low surrogate is accepted and the
pair is combined (a lone surrogate has no `Char` counterpart: model
restriction). -/
def parseLowSur (hi : Nat) (l : List Char) : Option (Char × List Char) :=
  match l with
  | e1 :: e2 :: h5 :: h6 :: h7 :: h8 :: r4 =>
    if e1 = '\\' && e2 = 'u' then
      match hex4 h5 h6 h7 h8 with
      | none => none
      | some m =>
        if 56320 ≤ m && m < 57344 then
          some (Char.ofNat (65536 + (hi - 55296) * 1024 + (m - 56320)), r4)
        else none
    else none
  | _ => none

/-- A `\\uXXXX` escape body: four hex digits, with surrogate-pair
handling. -/
def parseU (l : List Char) : Option (Char × List Char) :=
  match l with
  | h1 :: h2 :: h3 :: h4 :: r3 =>
    match hex4 h1 h2 h3 h4 with
    | none => none
    | some n =>
      if 55296 ≤ n && n < 56320 then parseLowSur n r3
      else if 56320 ≤ n && n < 57344 then none
      else some (Char.ofNat n, r3)
  | _ => none

/-- Decode the escape sequence after a backslash: one character and the
remaining input. -/
def unescapeOne (l : List Char) : Option (Char × List Char) :=
  match l with
  | [] => none
  | e :: r2 =>
    if e = '"' then some ('"', r2)
    else if e = '\\' then some ('\\', r2)
    else if e = '/' then some ('/', r2)
    else if e = 'b' then some (Char.ofNat 8, r2)
    else if e = 'f' then some (Char.ofNat 12, r2)
    else if e = 'n' then some ('\n', r2)
    else if e = 'r' then some ('\r', r2)
    else if e = 't' then some ('\t', r2)
    else if e = 'u' then parseU r2
    else none

/-- Parse a string body up to the closing quote, strict mode: raw
control characters are rejected.  The fuel (initially the input length)
only bounds the recursion, since every step consumes input. -/
def parseStringAux : Nat → List Char → Option (List Char × List Char)
  | _, [] => none
  | 0, _ :: _ => none
  | fuel + 1, c :: rest =>
    if c = '"' then some ([], rest)
    else if c = '\\' then
      match unescapeOne rest with
      | none => none
      | some (ch, r) => (parseStringAux fuel r).map (fun p => (ch :: p.1, p.2))
    else if c.toNat < 32 then none
    else (parseStringAux fuel rest).map (fun p => (c :: p.1, p.2))

def parseStringBody (l : List Char) : Option (List Char × List Char) :=
  parseStringAux l.length l

/-- Maximal run of decimal digits, with the accumulated value. -/
def parseDigits : List Char → Nat → Nat × List Char
  | [], acc => (acc, [])
  | c :: rest, acc =>
    if 48 ≤ c.toNat && c.toNat ≤ 57 then parseDigits rest (acc * 10 + (c.toNat - 48))
    else (acc, c :: rest)

/-- Whether the remainder starts a fractional or exponent part (which
the model rejects: floats). -/
def startsFracOrExp : List Char → Bool
  | c :: _ => c = '.' || c = 'e' || c = 'E'
  | [] => false

/-- Digits of a JSON number after the optional minus: `0`, or a
nonzero-led digit run. -/
def parseNumberCore (signed : Bool) (l1 : List Char) : Option (Json × List Char) :=
  match l1 with
  | [] => none
  | c :: rest =>
    if !(48 ≤ c.toNat && c.toNat ≤ 57) then none
    else
      let p := if c.toNat = 48 then ((0 : Nat), rest) else parseDigits (c :: rest) 0
      if startsFracOrExp p.2 then none
      else some (Json.num (if signed then -(p.1 : Int) else (p.1 : Int)), p.2)

/-- Parse a JSON number: optional minus, then `0` or a nonzero-led digit
run.  Fractional and exponent parts are a model restriction (floats). -/
def parseNumber (l : List Char) : Option (Json × List Char) :=
  match l with
  | [] => none
  | c :: rest =>
    if c = '-' then parseNumberCore true rest else parseNumberCore false (c :: rest)

/-- `dict` insertion: a duplicated key keeps its first position but takes
the new value. -/
def dictInsert : ObjFields → String → Json → ObjFields
  | [], k, v => [(k, v)]
  | (k1, v1) :: rest, k, v =>
    if k1 = k then (k1, v) :: rest else (k1, v1) :: dictInsert rest k v

/-- Building a dict from parsed member pairs, in order. -/
def dictOfPairs (pairs : List (String × Json)) : ObjFields :=
  pairs.foldl (fun d kv => dictInsert d kv.1 kv.2) []

mutual
/-- Parse one JSON value (after skipping leading whitespace).  The fuel
bounds the recursion; `jsonParse` supplies enough for any input. -/
def parseValue : Nat → List Char → Option (Json × List Char)
  | 0, _ => none
  | fuel + 1, l =>
    match skipWs l with
    | [] => none
    | c :: rest =>
      if c = 'n' then
        match rest with
        | 'u' :: 'l' :: 'l' :: r => some (Json.null, r)
        | _ => none
      else if c = 't' then
        match rest with
        | 'r' :: 'u' :: 'e' :: r => some (Json.bool true, r)
        | _ => none
      else if c = 'f' then
        match rest with
        | 'a' :: 'l' :: 's' :: 'e' :: r => some (Json.bool false, r)
        | _ => none
      else if c = '"' then
        (parseStringBody rest).map (fun p => (Json.str (String.mk p.1), p.2))
      else if c = '[' then
        match skipWs rest with
        | ']' :: r => some (Json.arr [], r)
        | l2 => (parseElems fuel l2).map (fun p => (Json.arr p.1, p.2))
      else if c = '{' then
        match skipWs rest with
        | '}' :: r => some (Json.obj [], r)
        | l2 => (parseMembers fuel l2).map (fun p => (Json.obj (dictOfPairs p.1), p.2))
      else parseNumber (c :: rest)

/-- Parse array elements and the closing bracket. -/
def parseElems : Nat → List Char → Option (List Json × List Char)
  | 0, _ => none
  | fuel + 1, l =>
    match parseValue fuel l with
    | none => none
    | some (v, r) =>
      match skipWs r with
      | ',' :: r2 => (parseElems fuel r2).map (fun p => (v :: p.1, p.2))
      | ']' :: r2 => some ([v], r2)
      | _ => none

/-- Parse object members and the closing brace. -/
def parseMembers : Nat → List Char → Option (List (String × Json) × List Char)
  | 0, _ => none
  | fuel + 1, l =>
    match skipWs l with
    | '"' :: r =>
      match parseStringBody r with
      | none => none
      | some (k, r1) =>
        match skipWs r1 with
        | ':' :: r2 =>
          match parseValue fuel r2 with
          | none => none
          | some (v, r3) =>
            match skipWs r3 with
            | ',' :: r4 => (parseMembers fuel r4).map (fun p => ((String.mk k, v) :: p.1, p.2))
            | '}' :: r4 => some ([(String.mk k, v)], r4)
            | _ => none
        | _ => none
    | _ => none
end

/-- `json.loads(text)`: one value, then only whitespace may remain.  The
fuel `2 * length + 2` is enough for any input (array nesting costs two
fuel per consumed character, everything else less). -/
def jsonParse (l : List Char) : Option Json :=
  match parseValue (2 * l.length + 2) l with
  | some (v, rest) => if skipWs rest = [] then some v else none
  | none => none

/-! ## Message parser, write path and session loop -/

/-- `parse_request(payload)`: UTF-8 decode, JSON parse, and the
top-level-object check; any failure is `None`. -/
def parse_request (payload : List Nat) : Option ObjFields :=
  match utf8Decode payload with
  | none => none
  | some text =>
    match jsonParse text with
    | none => none
    | some (Json.obj fields) => some fields
    | some _ => none

/-- `write_frame(stream, response)`: the bytes appended to the output
stream — a `Content-Length` header then the UTF-8 JSON payload. -/
def write_frame (response : Json) : List Nat :=
  let payload := utf8Encode (dumps response)
  strBytes "Content-Length: " ++ (natDigits payload.length).map Char.toNat ++
    strBytes "\r\n\r\n" ++ payload

/-- Outcome of the session loop: normal return, a crash by an unhandled
exception, or fuel exhaustion (never reached from `main`, whose fuel
exceeds the stream length while every iteration consumes at least one
byte). -/
inductive MainOutcome where
  | clean (written : List Nat) : MainOutcome
  | crashed (written : List Nat) (exc : PyExc) : MainOutcome
  | outOfFuel (written : List Nat) : MainOutcome

/-- One `main` loop: read a frame, handle framing errors per their fatal
flag, parse, dispatch, write the response; an `Except.error` from the
dispatcher is an unhandled Python exception. -/
def mainAux : Nat → List Nat → List Nat → MainOutcome
  | 0, _, written => MainOutcome.outOfFuel written
  | fuel + 1, s, written =>
    match read_frame s with
    | (FrameOutcome.eof, _) => MainOutcome.clean written
    | (FrameOutcome.err msg fatal, rest) =>
      let written := written ++ write_frame (build_error_response Json.null (-32600) msg)
      if fatal then MainOutcome.clean written else mainAux fuel rest written
    | (FrameOutcome.frame payload, rest) =>
      match parse_request payload with
      | none =>
        mainAux fuel rest
          (written ++ write_frame (build_error_response Json.null (-32700) "invalid json"))
      | some request =>
        match handle_request request with
        | Except.error e => MainOutcome.crashed written e
        | Except.ok response => mainAux fuel rest (written ++ write_frame response)

/-- `main()` applied to the whole input stream. -/
def main (s : List Nat) : MainOutcome := mainAux (s.length + 1) s []

/-! ## Statement helpers -/

/-- Pairwise-distinct keys, as any Python dict has. -/
def keysNodup : ObjFields → Bool
  | [] => true
  | (k, _) :: rest => !hasKey rest k && keysNodup rest

mutual
/-- A JSON value all of whose objects have pairwise-distinct keys: the
image of actual Python dict data in the model. -/
def wfJson : Json → Bool
  | Json.null => true
  | Json.bool _ => true
  | Json.num _ => true
  | Json.str _ => true
  | Json.arr xs => wfList xs
  | Json.obj fs => keysNodup fs && wfFields fs

def wfList : List Json → Bool
  | [] => true
  | x :: xs => wfJson x && wfList xs

def wfFields : List (String × Json) → Bool
  | [] => true
  | (_, v) :: fs => wfJson v && wfFields fs
end

/-- The wire bytes of the decimal digits of `n`. -/
def digitsBytes (n : Nat) : List Nat := (natDigits n).map Char.toNat

/-- The header bytes `read_frame` sees for a frame declaring `n` body
bytes: exactly what `write_frame` emits before the payload. -/
def frameHeader (n : Nat) : List Nat :=
  strBytes "Content-Length: " ++ digitsBytes n ++ strBytes "\r\n\r\n"

/-- Prefixing already-written output onto a loop outcome. -/
def MainOutcome.prepend (w : List Nat) : MainOutcome → MainOutcome
  | MainOutcome.clean ws => MainOutcome.clean (w ++ ws)
  | MainOutcome.crashed ws e => MainOutcome.crashed (w ++ ws) e
  | MainOutcome.outOfFuel ws => MainOutcome.outOfFuel (w ++ ws)

/-- Characters that may legally follow a printed JSON value inside a
larger printed document: end of input or a closing delimiter/comma. -/
def followOk : List Char → Prop
  | [] => True
  | c :: _ => c = ',' ∨ c = ']' ∨ c = '}'

mutual
/-- Fuel cost of `parseValue` on a value's printed form (arrays and
objects spend fuel per element on top of their delimiters). -/
def fsize : Json → Nat
  | Json.null => 1
  | Json.bool _ => 1
  | Json.num _ => 1
  | Json.str _ => 1
  | Json.arr xs => 2 + fsizeElems xs
  | Json.obj fs => 2 + fsizeFields fs

def fsizeElems : List Json → Nat
  | [] => 0
  | x :: xs => fsize x + 1 + fsizeElems xs

def fsizeFields : List (String × Json) → Nat
  | [] => 0
  | (_, v) :: fs => fsize v + 1 + fsizeFields fs
end

/-! ## Dispatcher lemmas -/

/-- Error responses carry `jsonrpc = "2.0"`, an `error` member and no
`result` member, whatever the id, code and message. -/
theorem build_error_response_shape (rid : Json) (code : Int) (msg : String) :
    objGet (build_error_response rid code msg).fieldsOf "jsonrpc" = some (Json.str "2.0") ∧
    hasKey (build_error_response rid code msg).fieldsOf "result" = false ∧
    hasKey (build_error_response rid code msg).fieldsOf "error" = true := by
  refine ⟨rfl, rfl, rfl⟩

/-- The version guard of `handle_request` in terms of the raw lookup. -/
theorem handle_request_bad_version (request : ObjFields)
    (h : isStrVal (objGetD request "jsonrpc") "2.0" = false) :
    handle_request request =
      Except.ok (build_error_response (objGetD request "id") (-32600)
        "invalid json-rpc version") := by
  simp [handle_request, h, pure, Except.pure]

/-- Success responses (a `result` member next to `jsonrpc` and `id`)
satisfy the exactly-one shape. -/
theorem success_response_shape (rid result : Json) :
    objGet (Json.obj [("jsonrpc", Json.str "2.0"), ("id", rid),
      ("result", result)]).fieldsOf "jsonrpc" = some (Json.str "2.0") ∧
    hasKey (Json.obj [("jsonrpc", Json.str "2.0"), ("id", rid),
      ("result", result)]).fieldsOf "result" = true ∧
    hasKey (Json.obj [("jsonrpc", Json.str "2.0"), ("id", rid),
      ("result", result)]).fieldsOf "error" = false := by
  refine ⟨rfl, rfl, rfl⟩

/-- Every `Except.ok` outcome of `handle_tool_call` carries exactly one
of `result`/`error`, and `jsonrpc = "2.0"`. -/
theorem handle_tool_call_shape (request : ObjFields) (resp : Json)
    (h : handle_tool_call request = Except.ok resp) :
    objGet resp.fieldsOf "jsonrpc" = some (Json.str "2.0") ∧
    hasKey resp.fieldsOf "result" = !hasKey resp.fieldsOf "error" := by
  unfold handle_tool_call at h
  simp only [bind, Except.bind, pure, Except.pure] at h
  split at h
  · exact Except.ok.inj h ▸ ⟨rfl, rfl⟩
  split at h
  · exact Except.ok.inj h ▸ ⟨rfl, rfl⟩
  split at h
  · exact Except.ok.inj h ▸ ⟨rfl, rfl⟩
  split at h
  · exact Except.ok.inj h ▸ ⟨rfl, rfl⟩
  · cases hq : handle_evidence_query (objGetD (objGetD (objGetD request "params").fieldsOf
        "arguments").fieldsOf "query") (objGetD (objGetD (objGetD request "params").fieldsOf
        "arguments").fieldsOf "context") with
    | error e => rw [hq] at h; cases h
    | ok result =>
      rw [hq] at h
      simp only [] at h
      split at h
      · exact Except.ok.inj h ▸ ⟨rfl, rfl⟩
      · exact Except.ok.inj h ▸ ⟨rfl, rfl⟩

/-- Method dispatch: a `"2.0"` request whose method is neither
`tools/list` nor `tools/call` gets `-32601`. -/
theorem handle_request_unknown_method (request : ObjFields)
    (hv : objGet request "jsonrpc" = some (Json.str "2.0"))
    (h1 : isStrVal (objGetD request "method") "tools/list" = false)
    (h2 : isStrVal (objGetD request "method") "tools/call" = false) :
    handle_request request =
      Except.ok (build_error_response (objGetD request "id") (-32601) "method not found") := by
  simp only [objGetD] at h1 h2
  simp [handle_request, objGetD, hv, h1, h2, pure, Except.pure, bind, Except.bind]
  intro hcon
  exact absurd hcon (by decide)

/-! ## Claim theorems: dispatcher -/

/-- C1: contrary to the claim, a shape-valid `tools/call` request whose
evidence query produces a domain-level error (here: missing `value` key)
makes `handle_tool_call` return a JSON-RPC **error** response with code
`-32000` — not a successful result carrying the `EvidenceResult`. -/
theorem C1_domain_fault_returns_minus32000 :
    handle_tool_call
      [("jsonrpc", Json.str "2.0"), ("id", Json.num 1),
       ("method", Json.str "tools/call"),
       ("params", Json.obj [("name", Json.str "evidence_query"),
         ("arguments", Json.obj [("query", Json.obj [("params", Json.obj [])]),
           ("context", Json.obj [])])])] =
      Except.ok (build_error_response (Json.num 1) (-32000) "params.value is required") := by
  rfl

/-- C3: contrary to the claim, `handle_evidence_query({"params": {}}, {})`
returns a result whose `error` field is the **bare string**
`"params.value is required"` (no structured `{code: "invalid_params"}`
object) and which has no `value` key at all. -/
theorem C3_missing_value_error_is_bare_string :
    handle_evidence_query (Json.obj [("params", Json.obj [])]) (Json.obj []) =
      Except.ok (Json.obj [("error", Json.str "params.value is required")]) := by
  rfl

/-- C6: a request whose `jsonrpc` field is present and differs from
`"2.0"` gets error `-32600` "invalid json-rpc version" echoing its id;
a `"2.0"` request whose method is neither `tools/list` nor `tools/call`
gets error `-32601` "method not found" echoing its id. -/
theorem C6_version_and_method_dispatch :
    (∀ (request : ObjFields) (v : Json), objGet request "jsonrpc" = some v →
      isStrVal v "2.0" = false →
      handle_request request =
        Except.ok (build_error_response (objGetD request "id") (-32600)
          "invalid json-rpc version")) ∧
    (∀ request : ObjFields, objGet request "jsonrpc" = some (Json.str "2.0") →
      isStrVal (objGetD request "method") "tools/list" = false →
      isStrVal (objGetD request "method") "tools/call" = false →
      handle_request request =
        Except.ok (build_error_response (objGetD request "id") (-32601)
          "method not found")) := by
  constructor
  · intro request v hv hne
    apply handle_request_bad_version
    simp [objGetD, hv, hne]
  · intro request hv h1 h2
    exact handle_request_unknown_method request hv h1 h2

/-- C6 witness: both parts at concrete requests. -/
theorem C6_version_and_method_dispatch_witness :
    handle_request [("jsonrpc", Json.str "1.0"), ("id", Json.num 1)] =
      Except.ok (build_error_response (Json.num 1) (-32600) "invalid json-rpc version") ∧
    handle_request [("jsonrpc", Json.str "2.0"), ("id", Json.num 2),
        ("method", Json.str "ping")] =
      Except.ok (build_error_response (Json.num 2) (-32601) "method not found") := by
  constructor
  · exact C6_version_and_method_dispatch.1
      [("jsonrpc", Json.str "1.0"), ("id", Json.num 1)] (Json.str "1.0") rfl (by decide)
  · exact C6_version_and_method_dispatch.2
      [("jsonrpc", Json.str "2.0"), ("id", Json.num 2), ("method", Json.str "ping")]
      rfl (by decide) (by decide)

/-- C8: every response `handle_request` produces carries
`jsonrpc = "2.0"` and exactly one of the members `result`/`error`
(the Boolean equation `hasKey "result" = !hasKey "error"` says: one is
present if and only if the other is absent). -/
theorem C8_response_has_exactly_one_of_result_error
    (request : ObjFields) (resp : Json)
    (h : handle_request request = Except.ok resp) :
    objGet resp.fieldsOf "jsonrpc" = some (Json.str "2.0") ∧
    hasKey resp.fieldsOf "result" = !hasKey resp.fieldsOf "error" := by
  unfold handle_request at h
  simp only [bind, Except.bind, pure, Except.pure] at h
  split at h
  · exact Except.ok.inj h ▸ ⟨rfl, rfl⟩
  split at h
  · exact Except.ok.inj h ▸ ⟨rfl, rfl⟩
  split at h
  · exact handle_tool_call_shape request resp h
  · exact Except.ok.inj h ▸ ⟨rfl, rfl⟩

/-- C8 witness: the `tools/list` request and its concrete response. -/
theorem C8_response_has_exactly_one_of_result_error_witness :
    objGet (Json.obj [("jsonrpc", Json.str "2.0"), ("id", Json.num 2),
      ("result", TOOL_LIST_RESULT)]).fieldsOf "jsonrpc" = some (Json.str "2.0") ∧
    hasKey (Json.obj [("jsonrpc", Json.str "2.0"), ("id", Json.num 2),
      ("result", TOOL_LIST_RESULT)]).fieldsOf "result" =
      !hasKey (Json.obj [("jsonrpc", Json.str "2.0"), ("id", Json.num 2),
        ("result", TOOL_LIST_RESULT)]).fieldsOf "error" :=
  C8_response_has_exactly_one_of_result_error
    [("jsonrpc", Json.str "2.0"), ("id", Json.num 2), ("method", Json.str "tools/list")]
    (Json.obj [("jsonrpc", Json.str "2.0"), ("id", Json.num 2),
      ("result", TOOL_LIST_RESULT)]) rfl

/-- C10: a request with no `jsonrpc` key at all is rejected with
`-32600` "invalid json-rpc version", echoing its id — the version field
is effectively mandatory. -/
theorem C10_missing_version_rejected (request : ObjFields)
    (h : objGet request "jsonrpc" = none) :
    handle_request request =
      Except.ok (build_error_response (objGetD request "id") (-32600)
        "invalid json-rpc version") := by
  apply handle_request_bad_version
  simp [objGetD, h, isStrVal]

/-- C10 witness: a concrete request without `jsonrpc`. -/
theorem C10_missing_version_rejected_witness :
    handle_request [("id", Json.num 7), ("method", Json.str "tools/list")] =
      Except.ok (build_error_response (Json.num 7) (-32600) "invalid json-rpc version") :=
  C10_missing_version_rejected [("id", Json.num 7), ("method", Json.str "tools/list")] rfl

/-! ## Character and digit lemmas -/

theorem char_valid_toNat (c : Char) : Nat.isValidChar c.toNat := by
  have := c.valid
  simp [UInt32.isValidChar, Char.toNat] at *
  exact this

theorem char_toNat_lt (c : Char) : c.toNat < 1114112 := by
  rcases char_valid_toNat c with h | h
  · omega
  · omega

theorem char_toNat_not_surrogate (c : Char) : c.toNat < 55296 ∨ 57344 ≤ c.toNat := by
  rcases char_valid_toNat c with h | h
  · exact Or.inl h
  · exact Or.inr h.1

theorem char_ofNat_toNat_eq (n : Nat) (h : Nat.isValidChar n) : (Char.ofNat n).toNat = n := by
  simp [Char.ofNat, h, Char.ofNatAux, Char.toNat, UInt32.toNat, BitVec.toNat_ofNatLt]

theorem char_toNat_inj {c d : Char} (h : c.toNat = d.toNat) : c = d := by
  have := Char.ofNat_toNat c
  rw [h, Char.ofNat_toNat] at this
  exact this.symm

theorem digit_char_toNat (m : Nat) (h : m < 10) : (Char.ofNat (48 + m)).toNat = 48 + m :=
  char_ofNat_toNat_eq _ (Or.inl (by omega))

/-- Accumulator form of the digit printer. -/
theorem natDigitsAux_acc (fuel : Nat) :
    ∀ n acc, natDigitsAux fuel n acc = natDigitsAux fuel n [] ++ acc := by
  induction fuel with
  | zero => intro n acc; simp [natDigitsAux]
  | succ f ih =>
    intro n acc
    simp only [natDigitsAux]
    by_cases h : n < 10
    · simp [h]
    · simp only [if_neg h]
      rw [ih (n / 10) (Char.ofNat (48 + n % 10) :: acc),
        ih (n / 10) [Char.ofNat (48 + n % 10)], List.append_assoc]
      rfl

/-- The digit printer ignores surplus fuel. -/
theorem natDigitsAux_irrel :
    ∀ m f g acc, m < f → m < g → natDigitsAux f m acc = natDigitsAux g m acc := by
  intro m
  induction m using Nat.strong_induction_on with
  | _ m ih =>
    intro f g acc hf hg
    match f, g with
    | f + 1, g + 1 =>
      simp only [natDigitsAux]
      by_cases h : m < 10
      · simp [h]
      · simp only [if_neg h]
        exact ih (m / 10) (by omega) f g _ (by omega) (by omega)

theorem natDigits_lt10 {n : Nat} (h : n < 10) : natDigits n = [Char.ofNat (48 + n)] := by
  simp [natDigits, natDigitsAux, h, Nat.mod_eq_of_lt h]

theorem natDigits_ge10 {n : Nat} (h : 10 ≤ n) :
    natDigits n = natDigits (n / 10) ++ [Char.ofNat (48 + n % 10)] := by
  unfold natDigits
  have h1 : natDigitsAux (n + 1) n [] =
      natDigitsAux n (n / 10) [Char.ofNat (48 + n % 10)] := by
    simp [natDigitsAux, Nat.not_lt.2 h]
  rw [h1, natDigitsAux_acc]
  have h2 : natDigitsAux n (n / 10) [] = natDigitsAux (n / 10 + 1) (n / 10) [] :=
    natDigitsAux_irrel (n / 10) n (n / 10 + 1) [] (by omega) (by omega)
  rw [h2]

theorem natDigits_all_digit : ∀ n, ∀ c ∈ natDigits n, 48 ≤ c.toNat ∧ c.toNat ≤ 57 := by
  intro n
  induction n using Nat.strong_induction_on with
  | _ n ih =>
    by_cases h : n < 10
    · rw [natDigits_lt10 h]
      intro c hc
      simp at hc
      subst hc
      rw [digit_char_toNat n h]
      omega
    · rw [natDigits_ge10 (by omega)]
      intro c hc
      rcases List.mem_append.1 hc with h1 | h2
      · exact ih (n / 10) (by omega) c h1
      · simp at h2
        subst h2
        rw [digit_char_toNat _ (by omega)]
        omega

theorem natDigits_ne_nil (n : Nat) : natDigits n ≠ [] := by
  by_cases h : n < 10
  · rw [natDigits_lt10 h]; simp
  · rw [natDigits_ge10 (by omega)]; simp

theorem natDigits_len_le : ∀ k n, 0 < k → n < 10 ^ k → (natDigits n).length ≤ k := by
  intro k
  induction k with
  | zero => omega
  | succ k ih =>
    intro n _ hn
    by_cases h : n < 10
    · rw [natDigits_lt10 h]
      simp only [List.length_singleton]
      omega
    · rw [natDigits_ge10 (by omega)]
      have hk : 0 < k := by
        by_contra hk0
        have : k = 0 := by omega
        subst this
        simp at hn
        omega
      have : n / 10 < 10 ^ k := by
        rw [pow_succ] at hn
        omega
      have := ih (n / 10) hk this
      simp
      omega

/-! ## Byte-level digit and header lemmas -/

theorem digitsBytes_digit {n : Nat} : ∀ b ∈ digitsBytes n, 48 ≤ b ∧ b ≤ 57 := by
  intro b hb
  rcases List.mem_map.1 hb with ⟨c, hc, rfl⟩
  exact natDigits_all_digit n c hc

theorem digitsBytes_ne_nil (n : Nat) : digitsBytes n ≠ [] := by
  simp [digitsBytes, natDigits_ne_nil n]

theorem digitsBytes_len (n : Nat) : (digitsBytes n).length = (natDigits n).length := by
  simp [digitsBytes]

/-- Digit-run parsing with a fold. -/
theorem natOfDigitsAux_digits :
    ∀ ds acc, (∀ b ∈ ds, 48 ≤ b ∧ b ≤ 57) →
      natOfDigitsAux ds acc =
        some (ds.foldl (fun a b => a * 10 + (b - 48)) acc) := by
  intro ds
  induction ds with
  | nil => intro acc _; rfl
  | cons b rest ih =>
    intro acc h
    have hb := h b (List.mem_cons_self b rest)
    simp only [natOfDigitsAux, List.foldl_cons]
    rw [if_pos (by omega)]
    exact ih _ (fun x hx => h x (List.mem_cons_of_mem b hx))

/-- The digit fold inverts the digit printer. -/
theorem digitFold_natDigits :
    ∀ n acc, (digitsBytes n).foldl (fun a b => a * 10 + (b - 48)) acc =
      acc * 10 ^ (digitsBytes n).length + n := by
  intro n
  induction n using Nat.strong_induction_on with
  | _ n ih =>
    intro acc
    by_cases h : n < 10
    · simp [digitsBytes, natDigits_lt10 h, digit_char_toNat n h]
    · have hn10 : 10 ≤ n := by omega
      have hstep : digitsBytes n = digitsBytes (n / 10) ++ [48 + n % 10] := by
        simp [digitsBytes, natDigits_ge10 hn10, digit_char_toNat (n % 10) (by omega)]
      rw [hstep, List.foldl_append, ih (n / 10) (by omega) acc]
      simp only [List.foldl_cons, List.foldl_nil, List.length_append,
        List.length_singleton]
      have : n % 10 + 48 - 48 = n % 10 := by omega
      ring_nf
      omega

theorem natOfDigits_digitsBytes (n : Nat) : natOfDigits (digitsBytes n) = some n := by
  have hne := digitsBytes_ne_nil n
  obtain ⟨b, bs, hbs⟩ : ∃ b bs, digitsBytes n = b :: bs := by
    cases hd : digitsBytes n with
    | nil => exact absurd hd hne
    | cons b bs => exact ⟨b, bs, rfl⟩
  rw [hbs]
  have h1 : natOfDigits (b :: bs) = natOfDigitsAux (b :: bs) 0 := rfl
  rw [h1, natOfDigitsAux_digits (b :: bs) 0 (hbs ▸ digitsBytes_digit)]
  have := digitFold_natDigits n 0
  rw [hbs] at this
  simp at this
  simp [this]

theorem pyInt_digitsBytes (n : Nat) : pyInt (digitsBytes n) = some (n : Int) := by
  obtain ⟨b, bs, hbs⟩ : ∃ b bs, digitsBytes n = b :: bs := by
    cases hd : digitsBytes n with
    | nil => exact absurd hd (digitsBytes_ne_nil n)
    | cons b bs => exact ⟨b, bs, rfl⟩
  have hb := digitsBytes_digit b (hbs ▸ List.mem_cons_self b bs)
  rw [hbs]
  simp only [pyInt]
  rw [if_neg (by omega), if_neg (by omega), ← hbs, natOfDigits_digitsBytes]
  rfl

/-! ## splitLines lemmas -/

theorem splitLines_append (l r : List Nat) (h : 10 ∉ l) :
    splitLines (l ++ 10 :: r) = (l ++ [10]) :: splitLines r := by
  induction l with
  | nil => simp [splitLines]
  | cons b bs ih =>
    have hb : b ≠ 10 := fun e => h (e ▸ List.mem_cons_self b bs)
    have h' : 10 ∉ bs := fun m => h (List.mem_cons_of_mem b m)
    simp only [List.cons_append, splitLines, if_neg hb, List.append_eq, ih h']

theorem splitLines_flatten : ∀ s : List Nat, (splitLines s).flatten = s := by
  intro s
  induction s with
  | nil => rfl
  | cons b rest ih =>
    by_cases hb : b = 10
    · subst hb
      simp [splitLines, ih]
    · simp only [splitLines, if_neg hb]
      cases hsl : splitLines rest with
      | nil =>
        rw [hsl] at ih
        simp at ih
        simp [ih]
      | cons l ls =>
        rw [hsl] at ih
        simp only [List.flatten_cons] at ih ⊢
        simp [ih]

theorem splitLines_ne_nil : ∀ s : List Nat, [] ∉ splitLines s := by
  intro s
  induction s with
  | nil => simp [splitLines]
  | cons b rest ih =>
    by_cases hb : b = 10
    · subst hb
      simp [splitLines, ih]
    · simp only [splitLines, if_neg hb]
      cases hsl : splitLines rest with
      | nil => simp
      | cons l ls =>
        rw [hsl] at ih
        intro hmem
        rcases List.mem_cons.1 hmem with h1 | h2
        · exact (List.cons_ne_nil b l) h1.symm
        · exact ih (List.mem_cons_of_mem l h2)

/-! ## Header-line processing lemmas -/

theorem afterColon_append (l r : List Nat) (h : 58 ∉ l) :
    afterColon (l ++ 58 :: r) = r := by
  induction l with
  | nil => simp [afterColon]
  | cons b bs ih =>
    have hb : b ≠ 58 := fun e => h (e ▸ List.mem_cons_self b bs)
    have h' : 58 ∉ bs := fun m => h (List.mem_cons_of_mem b m)
    simp only [List.cons_append, afterColon, if_neg hb, List.append_eq, ih h']

theorem dropWhile_append_not (l r : List Nat) (hne : l ≠ [])
    (h : ∀ b ∈ l, isPySpace b = false) :
    List.dropWhile isPySpace (l ++ r) = l ++ r := by
  cases l with
  | nil => exact absurd rfl hne
  | cons b bs =>
    have hb := h b (List.mem_cons_self b bs)
    simp [List.dropWhile_cons, hb]

theorem digit_not_pyspace {b : Nat} (h1 : 48 ≤ b) (h2 : b ≤ 57) : isPySpace b = false := by
  simp [isPySpace]
  omega

theorem stripBytes_cl_value (n : Nat) :
    stripBytes (32 :: (digitsBytes n ++ [13, 10])) = digitsBytes n := by
  have hne := digitsBytes_ne_nil n
  have hdig : ∀ b ∈ digitsBytes n, isPySpace b = false := fun b hb =>
    digit_not_pyspace (digitsBytes_digit b hb).1 (digitsBytes_digit b hb).2
  unfold stripBytes
  have h1 : List.dropWhile isPySpace (32 :: (digitsBytes n ++ [13, 10])) =
      digitsBytes n ++ [13, 10] := by
    rw [List.dropWhile_cons]
    simp only [show isPySpace 32 = true from rfl, if_pos]
    exact dropWhile_append_not _ _ hne hdig
  rw [h1]
  have h2 : (digitsBytes n ++ [13, 10]).reverse = 10 :: 13 :: (digitsBytes n).reverse := by
    simp
  rw [h2]
  have h3 : List.dropWhile isPySpace (10 :: 13 :: (digitsBytes n).reverse) =
      (digitsBytes n).reverse := by
    rw [List.dropWhile_cons]
    simp only [show isPySpace 10 = true from rfl, if_pos]
    rw [List.dropWhile_cons]
    simp only [show isPySpace 13 = true from rfl, if_pos]
    have : (digitsBytes n).reverse ++ [] = (digitsBytes n).reverse := by simp
    rw [← this]
    apply dropWhile_append_not
    · simp [hne]
    · intro b hb
      exact hdig b (List.mem_reverse.1 hb)
  rw [h3, List.reverse_reverse]

theorem map_id_on (f : Nat → Nat) : ∀ l : List Nat, (∀ b ∈ l, f b = b) → l.map f = l := by
  intro l
  induction l with
  | nil => intro _; rfl
  | cons b bs ih =>
    intro h
    simp only [List.map_cons, h b (List.mem_cons_self b bs),
      ih (fun x hx => h x (List.mem_cons_of_mem b hx))]

theorem isPrefixOf_append_self : ∀ l r : List Nat, l.isPrefixOf (l ++ r) = true := by
  intro l r
  induction l with
  | nil => simp [List.isPrefixOf]
  | cons b bs ih => simp [List.isPrefixOf, ih]

/-- Processing one `Content-Length` header line inside the loop. -/
theorem headerLoop_cl_line (n : Nat) (rest : List (List Nat)) (cl : Option Int) (hb : Nat)
    (hlim : hb + 18 + (natDigits n).length ≤ MAX_HEADER_BYTES) :
    headerLoop ((strBytes "Content-Length: " ++ digitsBytes n ++ [13, 10]) :: rest) cl hb =
      headerLoop rest (some (n : Int)) (hb + (18 + (natDigits n).length)) := by
  have hlen : (strBytes "Content-Length: " ++ digitsBytes n ++ [13, 10]).length =
      18 + (natDigits n).length := by
    simp [strBytes, digitsBytes_len]
    omega
  have hlow : (strBytes "Content-Length: " ++ digitsBytes n ++ [13, 10]).map asciiLower =
      strBytes "content-length: " ++ digitsBytes n ++ [13, 10] := by
    simp only [List.map_append]
    rw [show (strBytes "Content-Length: ").map asciiLower = strBytes "content-length: "
        from by decide]
    rw [map_id_on asciiLower (digitsBytes n) (fun b hb => by
      have := digitsBytes_digit b hb
      simp [asciiLower]
      omega)]
    rw [show ([13, 10] : List Nat).map asciiLower = [13, 10] from by decide]
  have hpre : (strBytes "content-length:").isPrefixOf
      ((strBytes "Content-Length: " ++ digitsBytes n ++ [13, 10]).map asciiLower) = true := by
    rw [hlow]
    rw [show strBytes "content-length: " = strBytes "content-length:" ++ [32] from by decide]
    rw [List.append_assoc, List.append_assoc]
    exact isPrefixOf_append_self _ _
  have hval : afterColon (strBytes "Content-Length: " ++ digitsBytes n ++ [13, 10]) =
      32 :: (digitsBytes n ++ [13, 10]) := by
    rw [show strBytes "Content-Length: " = strBytes "Content-Length" ++ 58 :: [32] from by decide]
    rw [List.append_assoc, List.append_assoc]
    show afterColon (strBytes "Content-Length" ++ 58 :: (32 :: (digitsBytes n ++ [13, 10]))) = _
    rw [afterColon_append (strBytes "Content-Length") _ (by decide)]
  have hni1 : ¬(strBytes "Content-Length: " ++ digitsBytes n ++ [13, 10] =
      ([13, 10] : List Nat)) := by
    intro h
    have := congrArg List.length h
    rw [hlen] at this
    simp only [List.length_cons, List.length_nil] at this
    omega
  have hni2 : ¬(strBytes "Content-Length: " ++ digitsBytes n ++ [13, 10] =
      ([10] : List Nat)) := by
    intro h
    have := congrArg List.length h
    rw [hlen] at this
    simp only [List.length_cons, List.length_nil] at this
    omega
  have hlim' : ¬(hb + (18 + (natDigits n).length) > MAX_HEADER_BYTES) := by omega
  simp only [headerLoop, hlen, hpre, hval, decide_eq_false hni1, decide_eq_false hni2,
    Bool.or_self, Bool.false_or, if_true, if_false, Bool.false_eq_true,
    stripBytes_cl_value, pyInt_digitsBytes]
  rw [if_neg hlim']

/-- Processing the blank line that ends the headers. -/
theorem headerLoop_blank_line (rest : List (List Nat)) (cl : Option Int) (hb : Nat)
    (hlim : hb + 2 ≤ MAX_HEADER_BYTES) :
    headerLoop ([13, 10] :: rest) cl hb = HeaderResult.blank cl rest := by
  simp only [headerLoop]
  rw [if_neg (by simp [MAX_HEADER_BYTES] at hlim ⊢; omega)]
  rw [if_pos (by simp)]

/-! ## discard_bytes lemmas -/

/-- `discard_bytes` semantics: with fuel at least `remaining`, it drops
exactly `remaining` bytes, or fails when the stream is shorter. -/
theorem discardAux_spec :
    ∀ fuel remaining s, remaining ≤ fuel →
      discardAux fuel remaining s =
        (if remaining ≤ s.length then some (s.drop remaining) else none) := by
  intro fuel
  induction fuel with
  | zero =>
    intro r s hr
    have : r = 0 := by omega
    subst this
    simp [discardAux]
  | succ f ih =>
    intro r s hr
    cases r with
    | zero => simp [discardAux]
    | succ r' =>
      simp only [discardAux]
      cases s with
      | nil =>
        simp [DISCARD_CHUNK_BYTES]
      | cons a t =>
        have hlen' : (List.take (min (r' + 1) DISCARD_CHUNK_BYTES) (a :: t)).length =
            min (min (r' + 1) DISCARD_CHUNK_BYTES) (a :: t).length := by
          simp [List.length_take]
        have hpos : 0 < min (min (r' + 1) DISCARD_CHUNK_BYTES) (a :: t).length := by
          simp [DISCARD_CHUNK_BYTES]
        have hnenil : List.take (min (r' + 1) DISCARD_CHUNK_BYTES) (a :: t) ≠ [] := by
          apply List.ne_nil_of_length_pos
          rw [hlen']
          exact hpos
        have hne : (List.take (min (r' + 1) DISCARD_CHUNK_BYTES) (a :: t)).isEmpty = false := by
          cases hc : List.take (min (r' + 1) DISCARD_CHUNK_BYTES) (a :: t) with
          | nil => exact absurd hc hnenil
          | cons x xs => rfl
        rw [if_neg (by simp [hne])]
        rw [hlen']
        rw [ih (r' + 1 - min (min (r' + 1) DISCARD_CHUNK_BYTES) (a :: t).length) _
          (by simp [DISCARD_CHUNK_BYTES] at hpos ⊢; omega)]
        rw [List.length_drop]
        by_cases hfit : r' + 1 ≤ (a :: t).length
        · rw [if_pos (by omega), if_pos hfit, List.drop_drop]
          have heq : min (min (r' + 1) DISCARD_CHUNK_BYTES) (a :: t).length +
              (r' + 1 - min (min (r' + 1) DISCARD_CHUNK_BYTES) (a :: t).length) = r' + 1 := by
            omega
          rw [heq]
        · rw [if_neg (by omega), if_neg hfit]

/-- `discard_bytes` on the stream model. -/
theorem discard_bytes_spec (s : List Nat) (count : Nat) :
    discard_bytes s count = (if count ≤ s.length then some (s.drop count) else none) :=
  discardAux_spec count count s (Nat.le_refl count)

/-! ## read_frame on well-formed headers -/

theorem splitLines_frameHeader (n : Nat) (body : List Nat) :
    splitLines (frameHeader n ++ body) =
      (strBytes "Content-Length: " ++ digitsBytes n ++ [13, 10]) :: [13, 10] ::
        splitLines body := by
  have h10 : (10 : Nat) ∉ strBytes "Content-Length: " ++ digitsBytes n ++ [13] := by
    intro hmem
    rcases List.mem_append.1 hmem with h1 | h2
    · rcases List.mem_append.1 h1 with ha | hb2
      · revert ha; decide
      · have := digitsBytes_digit _ hb2; omega
    · simp at h2
  have hshape : frameHeader n ++ body =
      (strBytes "Content-Length: " ++ digitsBytes n ++ [13]) ++ 10 :: ([13] ++ 10 :: body) := by
    simp only [frameHeader]
    rw [show strBytes "\r\n\r\n" = ([13, 10, 13, 10] : List Nat) from by decide]
    simp [List.append_assoc]
  rw [hshape, splitLines_append _ _ h10, splitLines_append [13] body (by decide)]
  simp [List.append_assoc]

theorem read_frame_frameHeader (n : Nat) (body : List Nat) (hn : 0 < n)
    (hd : (natDigits n).length + 20 ≤ MAX_HEADER_BYTES) :
    read_frame (frameHeader n ++ body) =
      if MAX_BODY_BYTES < n then
        match discard_bytes body n with
        | none => (FrameOutcome.err "unexpected eof" true, [])
        | some rest2 => (FrameOutcome.err "payload too large" false, rest2)
      else if n ≤ body.length then (FrameOutcome.frame (body.take n), body.drop n)
      else (FrameOutcome.err "unexpected eof" true, []) := by
  unfold read_frame
  rw [splitLines_frameHeader n body]
  rw [headerLoop_cl_line n _ none 0 (by omega)]
  rw [headerLoop_blank_line _ _ _ (by omega)]
  simp only [splitLines_flatten]
  rw [if_neg (by omega : ¬((n : Int) ≤ 0))]
  by_cases hbig : MAX_BODY_BYTES < n
  · rw [if_pos (by simp [MAX_BODY_BYTES] at hbig ⊢; omega), if_pos hbig]
    simp only [Int.toNat_ofNat]
  · rw [if_neg (by simp [MAX_BODY_BYTES] at hbig ⊢; omega), if_neg hbig]
    simp only [Int.toNat_ofNat]
    by_cases hfit : n ≤ body.length
    · rw [if_neg (by rw [List.length_take]; omega), if_pos hfit]
    · rw [if_pos (by rw [List.length_take]; omega), if_neg hfit]

/-! ## Claim theorems: framing -/

/-- C4: an oversized declared length (with its digits fitting the header
budget) drains exactly the declared bytes and fails recoverably, leaving
the stream aligned on the next frame, which then parses; if the stream
ends before the declared bytes are drained, the error is the fatal
`unexpected eof` instead. -/
theorem C4_oversize_drained_recoverable_realigned :
    (∀ (n : Nat) (body : List Nat) (m : Nat) (payload2 rest2 : List Nat),
      MAX_BODY_BYTES < n →
      (natDigits n).length + 20 ≤ MAX_HEADER_BYTES →
      body.length = n →
      0 < m → m ≤ MAX_BODY_BYTES → payload2.length = m →
      read_frame (frameHeader n ++ (body ++ (frameHeader m ++ (payload2 ++ rest2)))) =
        (FrameOutcome.err "payload too large" false,
          frameHeader m ++ (payload2 ++ rest2)) ∧
      read_frame (frameHeader m ++ (payload2 ++ rest2)) =
        (FrameOutcome.frame payload2, rest2)) ∧
    (∀ (n : Nat) (short : List Nat),
      MAX_BODY_BYTES < n →
      (natDigits n).length + 20 ≤ MAX_HEADER_BYTES →
      short.length < n →
      read_frame (frameHeader n ++ short) =
        (FrameOutcome.err "unexpected eof" true, [])) := by
  constructor
  · intro n body m payload2 rest2 hbig hdig hblen hm1 hm2 hplen
    have hmdig : (natDigits m).length + 20 ≤ MAX_HEADER_BYTES := by
      have h7 : (natDigits m).length ≤ 7 := by
        apply natDigits_len_le 7 m (by omega)
        simp [MAX_BODY_BYTES] at hm2
        omega
      simp [MAX_HEADER_BYTES] at *
      omega
    constructor
    · rw [read_frame_frameHeader n _ (by omega) hdig, if_pos hbig, discard_bytes_spec]
      rw [if_pos (by simp [List.length_append]; omega)]
      have : (body ++ (frameHeader m ++ (payload2 ++ rest2))).drop n =
          frameHeader m ++ (payload2 ++ rest2) := by
        rw [← hblen, List.drop_left]
      rw [this]
    · rw [read_frame_frameHeader m _ hm1 hmdig, if_neg (by omega)]
      rw [if_pos (by simp [List.length_append]; omega)]
      have h1 : (payload2 ++ rest2).take m = payload2 := by
        rw [← hplen, List.take_left]
      have h2 : (payload2 ++ rest2).drop m = rest2 := by
        rw [← hplen, List.drop_left]
      rw [h1, h2]
  · intro n short hbig hdig hshort
    rw [read_frame_frameHeader n short (by omega) hdig, if_pos hbig, discard_bytes_spec]
    rw [if_neg (by omega)]

/-- C4 witness: a 1 MiB + 1 declared length with exactly that many body
bytes, followed by a well-formed 5-byte frame; and the same declared
length over an empty remainder. -/
theorem C4_oversize_drained_recoverable_realigned_witness :
    read_frame (frameHeader 1048577 ++ (List.replicate 1048577 48 ++
        (frameHeader 5 ++ (strBytes "hello" ++ [])))) =
      (FrameOutcome.err "payload too large" false,
        frameHeader 5 ++ (strBytes "hello" ++ [])) ∧
    read_frame (frameHeader 5 ++ (strBytes "hello" ++ [])) =
      (FrameOutcome.frame (strBytes "hello"), []) ∧
    read_frame (frameHeader 1048577 ++ []) =
      (FrameOutcome.err "unexpected eof" true, []) := by
  have hdig : (natDigits 1048577).length + 20 ≤ MAX_HEADER_BYTES := by
    have h7 := natDigits_len_le 7 1048577 (by norm_num) (by norm_num)
    simp [MAX_HEADER_BYTES]
    omega
  have h1 := C4_oversize_drained_recoverable_realigned.1 1048577
    (List.replicate 1048577 48) 5 (strBytes "hello") []
    (by decide) hdig (List.length_replicate 1048577 48) (by decide) (by decide) (by decide)
  have h2 := C4_oversize_drained_recoverable_realigned.2 1048577 []
    (by decide) hdig (by decide)
  exact ⟨h1.1, h1.2, h2⟩

/-- C5 counterexample: a stream holding one complete `Content-Length`
header line and then ending yields `None` (modelled `FrameOutcome.eof`),
although header bytes had been read — not a `FrameError` as the claim
demands. -/
theorem C5_counterexample_eof_after_header_line :
    read_frame (strBytes "Content-Length: 10\r\n") = (FrameOutcome.eof, []) ∧
    (strBytes "Content-Length: 10\r\n").length = 20 := by
  constructor
  · rfl
  · rfl

/-- C5 amended: `read_frame` returns `None` for a clean end-of-stream at
any header-line boundary before the blank line — after a complete
`Content-Length` line just as before any header bytes. -/
theorem C5_amended_eof_at_any_line_boundary :
    (∀ n : Nat, (natDigits n).length + 18 ≤ MAX_HEADER_BYTES →
      read_frame (strBytes "Content-Length: " ++ digitsBytes n ++ [13, 10]) =
        (FrameOutcome.eof, [])) ∧
    read_frame [] = (FrameOutcome.eof, []) := by
  constructor
  · intro n hdig
    unfold read_frame
    have hshape : strBytes "Content-Length: " ++ digitsBytes n ++ [13, 10] =
        (strBytes "Content-Length: " ++ digitsBytes n ++ [13]) ++ 10 :: [] := by
      simp [List.append_assoc]
    have h10 : (10 : Nat) ∉ strBytes "Content-Length: " ++ digitsBytes n ++ [13] := by
      intro hmem
      rcases List.mem_append.1 hmem with h1 | h2
      · rcases List.mem_append.1 h1 with ha | hb2
        · revert ha; decide
        · have := digitsBytes_digit _ hb2; omega
      · simp at h2
    rw [hshape, splitLines_append _ _ h10]
    have : (strBytes "Content-Length: " ++ digitsBytes n ++ [13]) ++ [10] =
        strBytes "Content-Length: " ++ digitsBytes n ++ [13, 10] := by
      simp [List.append_assoc]
    rw [this, headerLoop_cl_line n _ none 0 (by omega)]
    rfl
  · rfl

/-- C5 amended witness: the header line declaring 10 and the empty
stream. -/
theorem C5_amended_eof_at_any_line_boundary_witness :
    read_frame (strBytes "Content-Length: " ++ digitsBytes 10 ++ [13, 10]) =
      (FrameOutcome.eof, []) :=
  C5_amended_eof_at_any_line_boundary.1 10 (by decide)

/-! ## Session-loop lemmas -/

/-- Reaching the blank line consumes at least one line of the stream. -/
theorem headerLoop_blank_flatten_lt :
    ∀ (lines : List (List Nat)) (cl : Option Int) (hb : Nat) (cl' : Option Int)
      (restLines : List (List Nat)),
      [] ∉ lines →
      headerLoop lines cl hb = HeaderResult.blank cl' restLines →
      restLines.flatten.length < lines.flatten.length := by
  intro lines
  induction lines with
  | nil =>
    intro cl hb cl' restLines _ h
    simp [headerLoop] at h
  | cons line rest ih =>
    intro cl hb cl' restLines hne h
    have hl : line ≠ [] := fun e => hne (e ▸ List.mem_cons_self line rest)
    have hlpos : 0 < line.length := List.length_pos.2 hl
    simp only [headerLoop] at h
    split at h
    · cases h
    split at h
    · cases h
      simp only [List.flatten_cons, List.length_append]
      omega
    split at h
    · split at h
      · have := ih _ _ _ _ (fun m => hne (List.mem_cons_of_mem line m)) h
        simp only [List.flatten_cons, List.length_append]
        omega
      · cases h
    · have := ih _ _ _ _ (fun m => hne (List.mem_cons_of_mem line m)) h
      simp only [List.flatten_cons, List.length_append]
      omega

/-- When `read_frame` lets the loop continue (a payload or a recoverable
error), it strictly consumed stream bytes. -/
theorem read_frame_rest_length (s : List Nat) :
    (read_frame s).1 = FrameOutcome.eof ∨
    (∃ msg, (read_frame s).1 = FrameOutcome.err msg true) ∨
    (read_frame s).2.length < s.length := by
  unfold read_frame
  cases hhl : headerLoop (splitLines s) none 0 with
  | eof => exact Or.inl rfl
  | fatalErr msg restLines => exact Or.inr (Or.inl ⟨msg, rfl⟩)
  | blank cl restLines =>
    have hflat := headerLoop_blank_flatten_lt (splitLines s) none 0 cl restLines
      (splitLines_ne_nil s) hhl
    rw [splitLines_flatten] at hflat
    cases cl with
    | none => exact Or.inr (Or.inl ⟨"missing content length", rfl⟩)
    | some n =>
      simp only
      split
      · exact Or.inr (Or.inl ⟨"invalid content length", rfl⟩)
      split
      · split
        · exact Or.inr (Or.inl ⟨"unexpected eof", rfl⟩)
        · rename_i rest2 heq
          rw [discard_bytes_spec] at heq
          refine Or.inr (Or.inr ?_)
          split at heq
          · have : rest2 = restLines.flatten.drop n.toNat := (Option.some.inj heq).symm
            rw [this, List.length_drop]
            omega
          · cases heq
      · split
        · exact Or.inr (Or.inl ⟨"unexpected eof", rfl⟩)
        · refine Or.inr (Or.inr ?_)
          simp only [List.length_drop]
          omega

theorem prepend_prepend (o : MainOutcome) (w x : List Nat) :
    (o.prepend x).prepend w = o.prepend (w ++ x) := by
  cases o <;> simp [MainOutcome.prepend]

/-- The written accumulator only prefixes the outcome. -/
theorem mainAux_prepend_append : ∀ (fuel : Nat) (s w w' : List Nat),
    mainAux fuel s (w ++ w') = (mainAux fuel s w').prepend w := by
  intro fuel
  induction fuel with
  | zero => intro s w w'; simp [mainAux, MainOutcome.prepend]
  | succ f ih =>
    intro s w w'
    rcases hrf : read_frame s with ⟨outcome, rest⟩
    simp only [mainAux, hrf]
    cases outcome with
    | eof => rfl
    | err msg fatal =>
      cases fatal with
      | true => simp [MainOutcome.prepend, List.append_assoc]
      | false =>
        show mainAux f rest (w ++ w' ++ write_frame (build_error_response Json.null (-32600) msg)) =
          MainOutcome.prepend w
            (mainAux f rest (w' ++ write_frame (build_error_response Json.null (-32600) msg)))
        rw [List.append_assoc]
        exact ih rest w _
    | frame payload =>
      rcases hpr : parse_request payload with _ | request
      · simp only [hpr]
        show mainAux f rest
            (w ++ w' ++ write_frame (build_error_response Json.null (-32700) "invalid json")) =
          MainOutcome.prepend w
            (mainAux f rest (w' ++ write_frame (build_error_response Json.null (-32700) "invalid json")))
        rw [List.append_assoc]
        exact ih rest w _
      · simp only [hpr]
        rcases hhr : handle_request request with e | response
        · simp [hhr, MainOutcome.prepend]
        · simp only [hhr]
          show mainAux f rest (w ++ w' ++ write_frame response) =
            MainOutcome.prepend w (mainAux f rest (w' ++ write_frame response))
          rw [List.append_assoc]
          exact ih rest w _

theorem mainAux_prepend (fuel : Nat) (s w : List Nat) :
    mainAux fuel s w = (mainAux fuel s []).prepend w := by
  have := mainAux_prepend_append fuel s w []
  simpa using this

/-- The loop's outcome does not depend on the fuel, as long as the fuel
exceeds the stream length (each iteration consumes at least one byte). -/
theorem mainAux_irrel : ∀ (f : Nat) (s : List Nat) (g : Nat) (w : List Nat),
    s.length < f → s.length < g → mainAux f s w = mainAux g s w := by
  intro f
  induction f with
  | zero => intro s g w h1 _; omega
  | succ f ih =>
    intro s g w h1 h2
    cases g with
    | zero => omega
    | succ g' =>
      rcases hrf : read_frame s with ⟨outcome, rest⟩
      have hlt := read_frame_rest_length s
      rw [hrf] at hlt
      simp only [mainAux, hrf]
      cases outcome with
      | eof => rfl
      | err msg fatal =>
        cases fatal with
        | true => rfl
        | false =>
          have hrest : rest.length < s.length := by
            rcases hlt with h | ⟨m, hm⟩ | h
            · simp at h
            · simp at hm
            · exact h
          exact ih rest g' _ (by omega) (by omega)
      | frame payload =>
        have hrest : rest.length < s.length := by
          rcases hlt with h | ⟨m, hm⟩ | h
          · simp at h
          · simp at hm
          · exact h
        rcases hpr : parse_request payload with _ | request
        · simp only [hpr]
          exact ih rest g' _ (by omega) (by omega)
        · simp only [hpr]
          rcases hhr : handle_request request with e | response
          · simp [hhr]
          · simp only [hhr]
            exact ih rest g' _ (by omega) (by omega)

/-! ## Claim theorems: message parser and session loop -/

/-- C7: `parse_request` returns `None` on invalid UTF-8, on JSON parse
failure and on a non-object top-level value, and whenever it does the
session loop writes exactly one `-32700` response with a null id and
continues as it would on the remaining stream. -/
theorem C7_parse_failures_yield_none_and_32700 :
    (∀ payload : List Nat, utf8Decode payload = none → parse_request payload = none) ∧
    (∀ (payload : List Nat) (text : List Char), utf8Decode payload = some text →
      jsonParse text = none → parse_request payload = none) ∧
    (∀ (payload : List Nat) (text : List Char) (v : Json), utf8Decode payload = some text →
      jsonParse text = some v → v.isObj = false → parse_request payload = none) ∧
    (∀ (s payload rest : List Nat), read_frame s = (FrameOutcome.frame payload, rest) →
      parse_request payload = none →
      main s = (main rest).prepend
        (write_frame (build_error_response Json.null (-32700) "invalid json"))) := by
  refine ⟨?_, ?_, ?_, ?_⟩
  · intro payload h
    simp [parse_request, h]
  · intro payload text hdec hjson
    simp [parse_request, hdec, hjson]
  · intro payload text v hdec hjson hobj
    cases v <;> simp_all [parse_request, Json.isObj]
  · intro s payload rest hrf hpr
    have hlt := read_frame_rest_length s
    rw [hrf] at hlt
    have hrest : rest.length < s.length := by
      rcases hlt with h | ⟨m, hm⟩ | h
      · simp at h
      · simp at hm
      · exact h
    unfold main
    simp only [mainAux, hrf, hpr]
    show mainAux s.length rest
        ([] ++ write_frame (build_error_response Json.null (-32700) "invalid json")) =
      (mainAux (rest.length + 1) rest []).prepend
        (write_frame (build_error_response Json.null (-32700) "invalid json"))
    rw [List.nil_append, mainAux_prepend,
      mainAux_irrel s.length rest (rest.length + 1) [] (by omega) (by omega)]

/-- C7 witness: invalid UTF-8, invalid JSON, a non-object JSON value,
and one framed non-object message driving the loop. -/
theorem C7_parse_failures_yield_none_and_32700_witness :
    parse_request [255] = none ∧
    parse_request (strBytes "nope") = none ∧
    parse_request (strBytes "[1]") = none ∧
    main (frameHeader 3 ++ strBytes "[1]") =
      (main []).prepend
        (write_frame (build_error_response Json.null (-32700) "invalid json")) := by
  refine ⟨?_, ?_, ?_, ?_⟩
  · exact C7_parse_failures_yield_none_and_32700.1 [255] rfl
  · exact C7_parse_failures_yield_none_and_32700.2.1 (strBytes "nope")
      ['n', 'o', 'p', 'e'] rfl rfl
  · exact C7_parse_failures_yield_none_and_32700.2.2.1 (strBytes "[1]")
      ['[', '1', ']'] (Json.arr [Json.num 1]) rfl rfl rfl
  · exact C7_parse_failures_yield_none_and_32700.2.2.2 (frameHeader 3 ++ strBytes "[1]")
      (strBytes "[1]") [] rfl rfl

/-- C2: contrary to the claim, a shape-valid `tools/call` frame whose
query carries `"params": 5` (an integer) crashes the session loop: the
membership test `"value" not in params` raises `TypeError` on an `int`,
which no handler catches. -/
theorem C2_integer_params_crashes_loop :
    main (write_frame (Json.obj [("jsonrpc", Json.str "2.0"), ("id", Json.num 1),
      ("method", Json.str "tools/call"),
      ("params", Json.obj [("name", Json.str "evidence_query"),
        ("arguments", Json.obj [("query", Json.obj [("params", Json.num 5)]),
          ("context", Json.obj [])])])])) =
      MainOutcome.crashed [] PyExc.typeError := by
  rfl

/-! ## ASCII facts about the printer -/

theorem hexDigit_ascii (k : Nat) (h : k < 16) : (hexDigit k).toNat < 128 := by
  unfold hexDigit
  split
  · rw [char_ofNat_toNat_eq _ (Or.inl (by omega))]
    omega
  · rw [char_ofNat_toNat_eq _ (Or.inl (by omega))]
    omega

theorem uEscape_ascii (n : Nat) : ∀ c ∈ uEscape n, c.toNat < 128 := by
  intro c hc
  simp only [uEscape, List.mem_cons, List.not_mem_nil, or_false] at hc
  rcases hc with rfl | rfl | rfl | rfl | rfl | rfl
  · decide
  · decide
  · exact hexDigit_ascii _ (Nat.mod_lt _ (by omega))
  · exact hexDigit_ascii _ (Nat.mod_lt _ (by omega))
  · exact hexDigit_ascii _ (Nat.mod_lt _ (by omega))
  · exact hexDigit_ascii _ (Nat.mod_lt _ (by omega))

theorem escapeChar_ascii (c : Char) : ∀ d ∈ escapeChar c, d.toNat < 128 := by
  intro d hd
  unfold escapeChar at hd
  simp only at hd
  split_ifs at hd with h1 h2 h3 h4 h5 h6 h7 h8 h9
  · simp only [List.mem_cons, List.not_mem_nil, or_false] at hd
    rcases hd with rfl | rfl <;> decide
  · simp only [List.mem_cons, List.not_mem_nil, or_false] at hd
    rcases hd with rfl | rfl <;> decide
  · simp only [List.mem_cons, List.not_mem_nil, or_false] at hd
    rcases hd with rfl | rfl <;> decide
  · simp only [List.mem_cons, List.not_mem_nil, or_false] at hd
    rcases hd with rfl | rfl <;> decide
  · simp only [List.mem_cons, List.not_mem_nil, or_false] at hd
    rcases hd with rfl | rfl <;> decide
  · simp only [List.mem_cons, List.not_mem_nil, or_false] at hd
    rcases hd with rfl | rfl <;> decide
  · simp only [List.mem_cons, List.not_mem_nil, or_false] at hd
    rcases hd with rfl | rfl <;> decide
  · simp only [List.mem_singleton] at hd
    subst hd
    simp at h8
    omega
  · exact uEscape_ascii _ _ hd
  · rcases List.mem_append.1 hd with h | h
    · exact uEscape_ascii _ _ h
    · exact uEscape_ascii _ _ h

theorem dumpString_ascii (s : List Char) : ∀ d ∈ dumpString s, d.toNat < 128 := by
  intro d hd
  unfold dumpString at hd
  rcases List.mem_cons.1 hd with rfl | hd'
  · decide
  · rcases List.mem_append.1 hd' with h | h
    · rcases List.mem_flatten.1 h with ⟨l, hl, hdl⟩
      rcases List.mem_map.1 hl with ⟨c, _, rfl⟩
      exact escapeChar_ascii c d hdl
    · simp only [List.mem_singleton] at h
      subst h
      decide

theorem intRepr_ascii (i : Int) : ∀ d ∈ intRepr i, d.toNat < 128 := by
  intro d hd
  unfold intRepr at hd
  split at hd
  · rcases List.mem_cons.1 hd with rfl | hd'
    · decide
    · have := natDigits_all_digit _ d hd'
      omega
  · have := natDigits_all_digit _ d hd
    omega

mutual
theorem dumps_ascii : ∀ (v : Json), ∀ c ∈ dumps v, c.toNat < 128
  | Json.null => by intro c hc; simp [dumps] at hc; rcases hc with rfl | rfl | rfl | rfl <;> decide
  | Json.bool true => by
    intro c hc; simp [dumps] at hc; rcases hc with rfl | rfl | rfl | rfl <;> decide
  | Json.bool false => by
    intro c hc; simp [dumps] at hc; rcases hc with rfl | rfl | rfl | rfl | rfl <;> decide
  | Json.num n => by intro c hc; exact intRepr_ascii n c hc
  | Json.str s => by intro c hc; exact dumpString_ascii s.toList c hc
  | Json.arr xs => by
    intro c hc
    simp only [dumps] at hc
    rcases List.mem_cons.1 hc with rfl | hc'
    · decide
    · rcases List.mem_append.1 hc' with h | h
      · exact dumpsElems_ascii xs c h
      · simp only [List.mem_singleton] at h; subst h; decide
  | Json.obj fs => by
    intro c hc
    simp only [dumps] at hc
    rcases List.mem_cons.1 hc with rfl | hc'
    · decide
    · rcases List.mem_append.1 hc' with h | h
      · exact dumpsFields_ascii fs c h
      · simp only [List.mem_singleton] at h; subst h; decide

theorem dumpsElems_ascii : ∀ (xs : List Json), ∀ c ∈ dumpsElems xs, c.toNat < 128
  | [] => by intro c hc; simp [dumpsElems] at hc
  | x :: xs => by
    intro c hc
    simp only [dumpsElems] at hc
    rcases List.mem_append.1 hc with h | h
    · rcases List.mem_append.1 h with h1 | h2
      · exact dumps_ascii x c h1
      · cases xs with
        | nil => simp at h2
        | cons y ys =>
          simp only [List.mem_cons, List.not_mem_nil, or_false] at h2
          rcases h2 with rfl | rfl <;> decide
    · exact dumpsElems_ascii xs c h

theorem dumpsFields_ascii : ∀ (fs : List (String × Json)), ∀ c ∈ dumpsFields fs, c.toNat < 128
  | [] => by intro c hc; simp [dumpsFields] at hc
  | (k, v) :: fs => by
    intro c hc
    simp only [dumpsFields] at hc
    rcases List.mem_append.1 hc with h | h
    · rcases List.mem_append.1 h with h1 | h2
      · rcases List.mem_append.1 h1 with h3 | h4
        · rcases List.mem_append.1 h3 with h5 | h6
          · exact dumpString_ascii k.toList c h5
          · simp only [List.mem_cons, List.not_mem_nil, or_false] at h6
            rcases h6 with rfl | rfl <;> decide
        · exact dumps_ascii v c h4
      · cases fs with
        | nil => simp at h2
        | cons g gs =>
          simp only [List.mem_cons, List.not_mem_nil, or_false] at h2
          rcases h2 with rfl | rfl <;> decide
    · exact dumpsFields_ascii fs c h
end

/-! ## UTF-8 round trip on ASCII text -/

theorem utf8Encode_ascii (s : List Char) (h : ∀ c ∈ s, c.toNat < 128) :
    utf8Encode s = s.map Char.toNat := by
  induction s with
  | nil => rfl
  | cons c cs ih =>
    have hc := h c (List.mem_cons_self c cs)
    simp only [utf8Encode, List.map_cons, List.flatten_cons]
    rw [show utf8EncodeChar c.toNat = [c.toNat] from by unfold utf8EncodeChar; rw [if_pos hc]]
    have := ih (fun d hd => h d (List.mem_cons_of_mem c hd))
    simp only [utf8Encode] at this
    simp [this]

theorem utf8DecodeAux_ascii (s : List Char) :
    ∀ fuel, s.length ≤ fuel → (∀ c ∈ s, c.toNat < 128) →
      utf8DecodeAux fuel (s.map Char.toNat) = some s := by
  induction s with
  | nil => intro fuel _ _; cases fuel <;> rfl
  | cons c cs ih =>
    intro fuel hfuel h
    have hc := h c (List.mem_cons_self c cs)
    cases fuel with
    | zero => simp at hfuel
    | succ f =>
      simp only [List.map_cons, utf8DecodeAux]
      rw [show utf8DecodeOne (c.toNat :: cs.map Char.toNat) =
          some (c.toNat, cs.map Char.toNat) from by
        simp [utf8DecodeOne, hc]]
      show Option.map (fun cs => Char.ofNat c.toNat :: cs)
          (utf8DecodeAux f (cs.map Char.toNat)) = some (c :: cs)
      rw [ih f (by simp at hfuel; omega) (fun d hd => h d (List.mem_cons_of_mem c hd))]
      simp [Char.ofNat_toNat]

theorem utf8Decode_encode_ascii (s : List Char) (h : ∀ c ∈ s, c.toNat < 128) :
    utf8Decode (utf8Encode s) = some s := by
  rw [utf8Encode_ascii s h]
  unfold utf8Decode
  exact utf8DecodeAux_ascii s _ (by simp) h

theorem utf8Encode_length_ascii (s : List Char) (h : ∀ c ∈ s, c.toNat < 128) :
    (utf8Encode s).length = s.length := by
  rw [utf8Encode_ascii s h]
  simp

/-! ## Number parsing round trip -/

/-- The leading digit of a positive number is not `0`. -/
theorem natDigits_head_ne_zero :
    ∀ n, 0 < n → ∀ c cs, natDigits n = c :: cs → 48 < c.toNat := by
  intro n
  induction n using Nat.strong_induction_on with
  | _ n ih =>
    intro hn c cs hcs
    by_cases h : n < 10
    · rw [natDigits_lt10 h] at hcs
      injection hcs with h1 _
      subst h1
      rw [digit_char_toNat n h]
      omega
    · rw [natDigits_ge10 (by omega)] at hcs
      obtain ⟨d, ds, hds⟩ : ∃ d ds, natDigits (n / 10) = d :: ds := by
        cases hq : natDigits (n / 10) with
        | nil => exact absurd hq (natDigits_ne_nil _)
        | cons d ds => exact ⟨d, ds, rfl⟩
      rw [hds] at hcs
      simp only [List.cons_append] at hcs
      injection hcs with h1 _
      subst h1
      exact ih (n / 10) (by omega) (by omega) _ ds hds

/-- `parseDigits` consumes exactly a digit run. -/
theorem parseDigits_run :
    ∀ (ds rest : List Char) (acc : Nat),
      (∀ c ∈ ds, 48 ≤ c.toNat ∧ c.toNat ≤ 57) →
      (∀ c cs, rest = c :: cs → ¬(48 ≤ c.toNat ∧ c.toNat ≤ 57)) →
      parseDigits (ds ++ rest) acc =
        (ds.foldl (fun a c => a * 10 + (c.toNat - 48)) acc, rest) := by
  intro ds
  induction ds with
  | nil =>
    intro rest acc _ hrest
    cases rest with
    | nil => rfl
    | cons c cs =>
      have := hrest c cs rfl
      simp only [List.nil_append, parseDigits, List.foldl_nil]
      rw [if_neg (by simpa using this)]
  | cons d ds ih =>
    intro rest acc hds hrest
    have hd := hds d (List.mem_cons_self d ds)
    simp only [List.cons_append, parseDigits, List.foldl_cons]
    rw [if_pos (by simpa using hd)]
    exact ih rest _ (fun c hc => hds c (List.mem_cons_of_mem d hc)) hrest

/-- The char-level digit fold inverts the digit printer. -/
theorem charFold_natDigits (n : Nat) (acc : Nat) :
    (natDigits n).foldl (fun a c => a * 10 + (c.toNat - 48)) acc =
      acc * 10 ^ (natDigits n).length + n := by
  have h1 := digitFold_natDigits n acc
  rw [digitsBytes, List.foldl_map] at h1
  rw [h1]
  simp

/-- `parseNumberCore` inverts the digit printer. -/
theorem parseNumberCore_natDigits (signed : Bool) (n : Nat) (rest : List Char)
    (hrest : ∀ c cs, rest = c :: cs →
      ¬(48 ≤ c.toNat ∧ c.toNat ≤ 57) ∧ c ≠ '.' ∧ c ≠ 'e' ∧ c ≠ 'E')
    (hsig : signed = true → 0 < n) :
    parseNumberCore signed (natDigits n ++ rest) =
      some (Json.num (if signed then -(n : Int) else (n : Int)), rest) := by
  have hnd : ∀ c cs, rest = c :: cs → ¬(48 ≤ c.toNat ∧ c.toNat ≤ 57) :=
    fun c cs h => (hrest c cs h).1
  have hfe : startsFracOrExp rest = false := by
    cases rest with
    | nil => rfl
    | cons c cs =>
      have := (hrest c cs rfl).2
      simp [startsFracOrExp, this.1, this.2.1, this.2.2]
  by_cases hz : n = 0
  · subst hz
    have h0 : signed = false := by
      cases signed with
      | false => rfl
      | true => exact absurd (hsig rfl) (by omega)
    subst h0
    rw [show natDigits 0 = ['0'] from natDigits_lt10 (by omega)]
    show (if startsFracOrExp ([] ++ rest) = true then none
      else some (Json.num 0, [] ++ rest)) = some (Json.num 0, rest)
    simp only [List.nil_append]
    rw [hfe]
    simp
  · obtain ⟨c, cs, hcs⟩ : ∃ c cs, natDigits n = c :: cs := by
      cases hq : natDigits n with
      | nil => exact absurd hq (natDigits_ne_nil _)
      | cons c cs => exact ⟨c, cs, rfl⟩
    have hcdig := natDigits_all_digit n c (hcs ▸ List.mem_cons_self c cs)
    have hcnz := natDigits_head_ne_zero n (by omega) c cs hcs
    rw [hcs]
    simp only [List.cons_append, parseNumberCore]
    rw [if_neg (by simp; omega)]
    have hc48 : ¬(c.toNat = 48) := by omega
    simp only [if_neg hc48]
    have hpd : parseDigits (c :: (cs ++ rest)) 0 =
        ((c :: cs).foldl (fun a c => a * 10 + (c.toNat - 48)) 0, rest) := by
      have := parseDigits_run (c :: cs) rest 0 (hcs ▸ natDigits_all_digit n) hnd
      simpa using this
    rw [hpd]
    have hfold : (c :: cs).foldl (fun a c => a * 10 + (c.toNat - 48)) 0 = n := by
      have := charFold_natDigits n 0
      rw [hcs] at this
      simpa using this
    simp [hfold, hfe]

/-- `parseNumber` inverts Python's integer printer. -/
theorem parseNumber_intRepr (i : Int) (rest : List Char)
    (hrest : ∀ c cs, rest = c :: cs →
      ¬(48 ≤ c.toNat ∧ c.toNat ≤ 57) ∧ c ≠ '.' ∧ c ≠ 'e' ∧ c ≠ 'E') :
    parseNumber (intRepr i ++ rest) = some (Json.num i, rest) := by
  unfold intRepr
  split
  · rename_i hneg
    show parseNumberCore true (natDigits (-i).toNat ++ rest) = some (Json.num i, rest)
    rw [parseNumberCore_natDigits true (-i).toNat rest hrest (fun _ => by omega)]
    have h2 : -(((-i).toNat : Nat) : Int) = i := by omega
    rw [if_pos rfl, h2]
  · rename_i hneg
    obtain ⟨c, cs, hcs⟩ : ∃ c cs, natDigits i.toNat = c :: cs := by
      cases hq : natDigits i.toNat with
      | nil => exact absurd hq (natDigits_ne_nil _)
      | cons c cs => exact ⟨c, cs, rfl⟩
    have hcdig := natDigits_all_digit i.toNat c (hcs ▸ List.mem_cons_self c cs)
    rw [hcs]
    show (if c = '-' then parseNumberCore true (cs ++ rest)
      else parseNumberCore false (c :: (cs ++ rest))) = some (Json.num i, rest)
    rw [if_neg (by
      intro h
      subst h
      revert hcdig
      decide)]
    rw [show (c :: (cs ++ rest)) = natDigits i.toNat ++ rest from by rw [hcs]; simp]
    rw [parseNumberCore_natDigits false i.toNat rest hrest (by simp)]
    have h2 : ((i.toNat : Nat) : Int) = i := by omega
    rw [if_neg (by simp), h2]

/-! ## String parsing round trip -/

theorem parseHexDigit_hexDigit : ∀ k, k < 16 → parseHexDigit (hexDigit k) = some k := by
  decide

theorem hex4_uEscape_digits (n : Nat) (hn : n < 65536) :
    hex4 (hexDigit (n / 4096 % 16)) (hexDigit (n / 256 % 16))
      (hexDigit (n / 16 % 16)) (hexDigit (n % 16)) = some n := by
  unfold hex4
  rw [parseHexDigit_hexDigit _ (Nat.mod_lt _ (by omega)),
    parseHexDigit_hexDigit _ (Nat.mod_lt _ (by omega)),
    parseHexDigit_hexDigit _ (Nat.mod_lt _ (by omega)),
    parseHexDigit_hexDigit _ (Nat.mod_lt _ (by omega))]
  show some (n / 4096 % 16 * 4096 + n / 256 % 16 * 256 + n / 16 % 16 * 16 + n % 16) = some n
  congr 1
  omega

/-- `parseU` on the four digits of a non-surrogate BMP code unit. -/
theorem parseU_digits (m : Nat) (hm : m < 65536) (hns : ¬(55296 ≤ m ∧ m < 57344))
    (l : List Char) :
    parseU (hexDigit (m / 4096 % 16) :: hexDigit (m / 256 % 16) ::
      hexDigit (m / 16 % 16) :: hexDigit (m % 16) :: l) = some (Char.ofNat m, l) := by
  simp only [parseU, hex4_uEscape_digits m hm]
  rw [if_neg (by simp; omega), if_neg (by simp; omega)]

/-- `parseU` on a full surrogate pair reassembles the astral code point. -/
theorem parseU_surrogate_pair (hi lo : Nat) (hhi1 : hi < 65536)
    (hhi2 : 55296 ≤ hi ∧ hi < 56320) (hlo2 : 56320 ≤ lo ∧ lo < 57344) (l : List Char) :
    parseU (hexDigit (hi / 4096 % 16) :: hexDigit (hi / 256 % 16) ::
      hexDigit (hi / 16 % 16) :: hexDigit (hi % 16) ::
      (uEscape lo ++ l)) =
      some (Char.ofNat (65536 + (hi - 55296) * 1024 + (lo - 56320)), l) := by
  simp only [parseU, hex4_uEscape_digits hi hhi1]
  rw [if_pos (by simp; omega)]
  simp only [uEscape, List.cons_append, parseLowSur]
  rw [if_pos (by decide)]
  rw [hex4_uEscape_digits lo (by omega)]
  show (if (56320 ≤ lo && lo < 57344) = true
      then some (Char.ofNat (65536 + (hi - 55296) * 1024 + (lo - 56320)), l) else none) =
    some (Char.ofNat (65536 + (hi - 55296) * 1024 + (lo - 56320)), l)
  rw [if_pos (by simp; omega)]

theorem unescapeOne_u (Y : List Char) : unescapeOne ('u' :: Y) = parseU Y := by
  simp [unescapeOne]

/-- One escaped-character step of the string parser. -/
theorem parseStringAux_backslash (f : Nat) (Y : List Char) (ch : Char) (r : List Char)
    (h : unescapeOne Y = some (ch, r)) :
    parseStringAux (f + 1) ('\\' :: Y) =
      (parseStringAux f r).map (fun p => (ch :: p.1, p.2)) := by
  simp [parseStringAux, h]

/-- One plain-character step of the string parser. -/
theorem parseStringAux_plain (f : Nat) (c : Char) (Y : List Char)
    (h1 : ¬(c = '"')) (h2 : ¬(c = '\\')) (h3 : ¬(c.toNat < 32)) :
    parseStringAux (f + 1) (c :: Y) =
      (parseStringAux f Y).map (fun p => (c :: p.1, p.2)) := by
  simp only [parseStringAux]
  rw [if_neg h1, if_neg h2, if_neg h3]

theorem escapeChar_plain (c : Char) (h : 32 ≤ c.toNat) (h' : c.toNat ≤ 126)
    (h34 : c.toNat ≠ 34) (h92 : c.toNat ≠ 92) : escapeChar c = [c] := by
  unfold escapeChar
  simp only
  rw [if_neg h34, if_neg h92, if_neg (by omega), if_neg (by omega), if_neg (by omega),
    if_neg (by omega), if_neg (by omega), if_pos (by simp; omega)]

theorem escapeChar_uescape (c : Char) (hpr : ¬(32 ≤ c.toNat ∧ c.toNat ≤ 126))
    (h10' : c.toNat ≠ 10) (h13' : c.toNat ≠ 13) (h9' : c.toNat ≠ 9)
    (h8' : c.toNat ≠ 8) (h12' : c.toNat ≠ 12) (hlt : c.toNat < 65536) :
    escapeChar c = uEscape c.toNat := by
  unfold escapeChar
  simp only
  rw [if_neg (by omega), if_neg (by omega), if_neg h10', if_neg h13', if_neg h9',
    if_neg h8', if_neg h12', if_neg (by simp; omega), if_pos hlt]

theorem escapeChar_astral (c : Char) (h : 65536 ≤ c.toNat) :
    escapeChar c = uEscape (55296 + (c.toNat - 65536) / 1024) ++
      uEscape (56320 + (c.toNat - 65536) % 1024) := by
  unfold escapeChar
  simp only
  rw [if_neg (by omega), if_neg (by omega), if_neg (by omega), if_neg (by omega),
    if_neg (by omega), if_neg (by omega), if_neg (by omega), if_neg (by simp; omega),
    if_neg (by omega)]

theorem escapeChar_len_pos (c : Char) : 1 ≤ (escapeChar c).length := by
  unfold escapeChar
  simp only
  split_ifs <;> simp [uEscape]

theorem flatten_escape_len (s : List Char) :
    s.length ≤ ((s.map escapeChar).flatten).length := by
  induction s with
  | nil => simp
  | cons c cs ih =>
    simp only [List.map_cons, List.flatten_cons, List.length_append, List.length_cons]
    have := escapeChar_len_pos c
    omega

/-- The string parser inverts the `json.dumps` escaper. -/
theorem parseStringAux_escape :
    ∀ (s rest : List Char) (fuel : Nat), s.length + 1 ≤ fuel →
      parseStringAux fuel ((s.map escapeChar).flatten ++ '"' :: rest) = some (s, rest) := by
  intro s
  induction s with
  | nil =>
    intro rest fuel hfuel
    cases fuel with
    | zero => omega
    | succ f =>
      simp [parseStringAux]
  | cons c cs ih =>
    intro rest fuel hfuel
    cases fuel with
    | zero => simp at hfuel
    | succ f =>
      have hfuel' : cs.length + 1 ≤ f := by simp at hfuel; omega
      simp only [List.map_cons, List.flatten_cons, List.append_assoc]
      have hval := char_valid_toNat c
      by_cases h34 : c.toNat = 34
      · have hc : c = '"' := char_toNat_inj (by rw [h34]; decide)
        subst hc
        rw [show escapeChar '"' = ['\\', '"'] from by decide]
        rw [show (['\\', '"'] : List Char) ++ ((cs.map escapeChar).flatten ++ '"' :: rest) =
          '\\' :: ('"' :: ((cs.map escapeChar).flatten ++ '"' :: rest)) from rfl]
        rw [parseStringAux_backslash f ('"' :: ((cs.map escapeChar).flatten ++ '"' :: rest))
          '"' ((cs.map escapeChar).flatten ++ '"' :: rest) rfl, ih rest f hfuel']
        rfl
      by_cases h92 : c.toNat = 92
      · have hc : c = '\\' := char_toNat_inj (by rw [h92]; decide)
        subst hc
        rw [show escapeChar '\\' = ['\\', '\\'] from by decide]
        rw [show (['\\', '\\'] : List Char) ++ ((cs.map escapeChar).flatten ++ '"' :: rest) =
          '\\' :: ('\\' :: ((cs.map escapeChar).flatten ++ '"' :: rest)) from rfl]
        rw [parseStringAux_backslash f ('\\' :: ((cs.map escapeChar).flatten ++ '"' :: rest))
          '\\' ((cs.map escapeChar).flatten ++ '"' :: rest) rfl, ih rest f hfuel']
        rfl
      by_cases h10 : c.toNat = 10
      · have hc : c = '\n' := char_toNat_inj (by rw [h10]; decide)
        subst hc
        rw [show escapeChar '\n' = ['\\', 'n'] from by decide]
        rw [show (['\\', 'n'] : List Char) ++ ((cs.map escapeChar).flatten ++ '"' :: rest) =
          '\\' :: ('n' :: ((cs.map escapeChar).flatten ++ '"' :: rest)) from rfl]
        rw [parseStringAux_backslash f ('n' :: ((cs.map escapeChar).flatten ++ '"' :: rest))
          '\n' ((cs.map escapeChar).flatten ++ '"' :: rest) rfl, ih rest f hfuel']
        rfl
      by_cases h13 : c.toNat = 13
      · have hc : c = '\r' := char_toNat_inj (by rw [h13]; decide)
        subst hc
        rw [show escapeChar '\r' = ['\\', 'r'] from by decide]
        rw [show (['\\', 'r'] : List Char) ++ ((cs.map escapeChar).flatten ++ '"' :: rest) =
          '\\' :: ('r' :: ((cs.map escapeChar).flatten ++ '"' :: rest)) from rfl]
        rw [parseStringAux_backslash f ('r' :: ((cs.map escapeChar).flatten ++ '"' :: rest))
          '\r' ((cs.map escapeChar).flatten ++ '"' :: rest) rfl, ih rest f hfuel']
        rfl
      by_cases h9 : c.toNat = 9
      · have hc : c = '\t' := char_toNat_inj (by rw [h9]; decide)
        subst hc
        rw [show escapeChar '\t' = ['\\', 't'] from by decide]
        rw [show (['\\', 't'] : List Char) ++ ((cs.map escapeChar).flatten ++ '"' :: rest) =
          '\\' :: ('t' :: ((cs.map escapeChar).flatten ++ '"' :: rest)) from rfl]
        rw [parseStringAux_backslash f ('t' :: ((cs.map escapeChar).flatten ++ '"' :: rest))
          '\t' ((cs.map escapeChar).flatten ++ '"' :: rest) rfl, ih rest f hfuel']
        rfl
      by_cases h8 : c.toNat = 8
      · have hc : c = Char.ofNat 8 := char_toNat_inj (by rw [h8]; decide)
        subst hc
        rw [show escapeChar (Char.ofNat 8) = ['\\', 'b'] from by decide]
        rw [show (['\\', 'b'] : List Char) ++ ((cs.map escapeChar).flatten ++ '"' :: rest) =
          '\\' :: ('b' :: ((cs.map escapeChar).flatten ++ '"' :: rest)) from rfl]
        rw [parseStringAux_backslash f ('b' :: ((cs.map escapeChar).flatten ++ '"' :: rest))
          (Char.ofNat 8) ((cs.map escapeChar).flatten ++ '"' :: rest) rfl, ih rest f hfuel']
        rfl
      by_cases h12 : c.toNat = 12
      · have hc : c = Char.ofNat 12 := char_toNat_inj (by rw [h12]; decide)
        subst hc
        rw [show escapeChar (Char.ofNat 12) = ['\\', 'f'] from by decide]
        rw [show (['\\', 'f'] : List Char) ++ ((cs.map escapeChar).flatten ++ '"' :: rest) =
          '\\' :: ('f' :: ((cs.map escapeChar).flatten ++ '"' :: rest)) from rfl]
        rw [parseStringAux_backslash f ('f' :: ((cs.map escapeChar).flatten ++ '"' :: rest))
          (Char.ofNat 12) ((cs.map escapeChar).flatten ++ '"' :: rest) rfl, ih rest f hfuel']
        rfl
      by_cases hpr : 32 ≤ c.toNat ∧ c.toNat ≤ 126
      · rw [escapeChar_plain c hpr.1 hpr.2 h34 h92]
        rw [show ([c] : List Char) ++ ((cs.map escapeChar).flatten ++ '"' :: rest) =
          c :: ((cs.map escapeChar).flatten ++ '"' :: rest) from rfl]
        rw [parseStringAux_plain f c _
          (fun h => h34 (by rw [h]; decide)) (fun h => h92 (by rw [h]; decide))
          (by omega), ih rest f hfuel']
        rfl
      by_cases hbmp : c.toNat < 65536
      · rw [escapeChar_uescape c hpr h10 h13 h9 h8 h12 hbmp]
        simp only [uEscape, List.cons_append, List.nil_append]
        rw [parseStringAux_backslash f _ _ _
          ((unescapeOne_u _).trans (parseU_digits c.toNat hbmp
            (by rcases char_toNat_not_surrogate c with h | h <;> omega) _))]
        rw [ih rest f hfuel']
        simp [Char.ofNat_toNat]
      · have hge : 65536 ≤ c.toNat := by omega
        have hlt := char_toNat_lt c
        rw [escapeChar_astral c hge]
        rw [List.append_assoc]
        have hpu := parseU_surrogate_pair (55296 + (c.toNat - 65536) / 1024)
          (56320 + (c.toNat - 65536) % 1024) (by omega) (by omega) (by omega)
          ((cs.map escapeChar).flatten ++ '"' :: rest)
        have hch : (65536 + (55296 + (c.toNat - 65536) / 1024 - 55296) * 1024 +
            (56320 + (c.toNat - 65536) % 1024 - 56320)) = c.toNat := by omega
        rw [hch] at hpu
        simp only [uEscape, List.cons_append, List.nil_append] at hpu ⊢
        rw [parseStringAux_backslash f _ _ _ ((unescapeOne_u _).trans hpu)]
        rw [ih rest f hfuel']
        simp [Char.ofNat_toNat]

/-- The wrapper with its own fuel. -/
theorem parseStringBody_escape (s rest : List Char) :
    parseStringBody ((s.map escapeChar).flatten ++ '"' :: rest) = some (s, rest) := by
  unfold parseStringBody
  apply parseStringAux_escape
  simp only [List.length_append, List.length_cons]
  have := flatten_escape_len s
  omega

/-! ## Printed values: head characters and whitespace -/

/-- The first character of a printed value is never whitespace nor a
closing delimiter. -/
theorem dumps_head_spec (v : Json) : ∃ c cs, dumps v = c :: cs ∧
    (c = ' ' || c = '\t' || c = '\n' || c = '\r') = false ∧ c ≠ ']' ∧ c ≠ '}' := by
  cases v with
  | null => refine ⟨'n', _, rfl, ?_, ?_, ?_⟩ <;> decide
  | bool b =>
    cases b
    · refine ⟨'f', _, rfl, ?_, ?_, ?_⟩ <;> decide
    · refine ⟨'t', _, rfl, ?_, ?_, ?_⟩ <;> decide
  | num n =>
    show ∃ c cs, intRepr n = c :: cs ∧ _
    unfold intRepr
    split
    · refine ⟨'-', _, rfl, ?_, ?_, ?_⟩ <;> decide
    · obtain ⟨c, cs, hcs⟩ : ∃ c cs, natDigits n.toNat = c :: cs := by
        cases hq : natDigits n.toNat with
        | nil => exact absurd hq (natDigits_ne_nil _)
        | cons c cs => exact ⟨c, cs, rfl⟩
      have hd := natDigits_all_digit n.toNat c (hcs ▸ List.mem_cons_self c cs)
      refine ⟨c, cs, hcs, ?_, ?_, ?_⟩
      · have h32 : c.toNat ≠ 32 := by omega
        have h9 : c.toNat ≠ 9 := by omega
        have h10 : c.toNat ≠ 10 := by omega
        have h13 : c.toNat ≠ 13 := by omega
        simp only [Bool.or_eq_false_iff]
        refine ⟨⟨⟨?_, ?_⟩, ?_⟩, ?_⟩ <;>
          · simp only [decide_eq_false_iff_not]
            intro h
            subst h
            simp at *
      · intro h; subst h; simp at hd
      · intro h; subst h; simp at hd
  | str s => refine ⟨'"', _, rfl, ?_, ?_, ?_⟩ <;> decide
  | arr xs => refine ⟨'[', _, rfl, ?_, ?_, ?_⟩ <;> decide
  | obj fs => refine ⟨'\x7b', _, rfl, ?_, ?_, ?_⟩ <;> decide

theorem skipWs_dumps (v : Json) (r : List Char) :
    skipWs (dumps v ++ r) = dumps v ++ r := by
  obtain ⟨c, cs, hd, hws, _, _⟩ := dumps_head_spec v
  rw [hd]
  simp only [List.cons_append, skipWs, List.dropWhile_cons, hws]
  rw [if_neg (by simp)]

theorem skipWs_cons_space (l : List Char) : skipWs (' ' :: l) = skipWs l := by
  simp [skipWs, List.dropWhile_cons]

theorem parseValue_space (fuel : Nat) (l : List Char) :
    parseValue fuel (' ' :: l) = parseValue fuel l := by
  cases fuel with
  | zero => rfl
  | succ f =>
    simp only [parseValue, skipWs_cons_space]

theorem parseElems_space (fuel : Nat) (l : List Char) :
    parseElems fuel (' ' :: l) = parseElems fuel l := by
  cases fuel with
  | zero => rfl
  | succ f =>
    simp only [parseElems, parseValue_space]

theorem parseMembers_space (fuel : Nat) (l : List Char) :
    parseMembers fuel (' ' :: l) = parseMembers fuel l := by
  cases fuel with
  | zero => rfl
  | succ f =>
    simp only [parseMembers, skipWs_cons_space]

/-! ## dict lemmas -/

theorem mem_hasKey (fs : ObjFields) (k : String) (v : Json) (h : (k, v) ∈ fs) :
    hasKey fs k = true := by
  induction fs with
  | nil => simp at h
  | cons g gs ih =>
    rcases List.mem_cons.1 h with rfl | h'
    · simp [hasKey]
    · cases g with
      | mk k1 v1 => simp [hasKey, ih h']

theorem hasKey_append (a b : ObjFields) (k : String) :
    hasKey (a ++ b) k = (hasKey a k || hasKey b k) := by
  induction a with
  | nil => simp [hasKey]
  | cons g gs ih =>
    cases g with
    | mk k1 v1 =>
      simp only [List.cons_append, hasKey, List.append_eq, ih, Bool.or_assoc]

theorem dictInsert_notmem (d : ObjFields) (k : String) (v : Json)
    (h : hasKey d k = false) : dictInsert d k v = d ++ [(k, v)] := by
  induction d with
  | nil => rfl
  | cons g gs ih =>
    cases g with
    | mk k1 v1 =>
      simp only [hasKey, Bool.or_eq_false_iff, decide_eq_false_iff_not] at h
      simp only [dictInsert, if_neg h.1, List.cons_append, ih h.2]

theorem dictOfPairs_go : ∀ (fs acc : ObjFields), keysNodup fs = true →
    (∀ k v, (k, v) ∈ fs → hasKey acc k = false) →
    fs.foldl (fun d kv => dictInsert d kv.1 kv.2) acc = acc ++ fs := by
  intro fs
  induction fs with
  | nil => intro acc _ _; simp
  | cons g gs ih =>
    intro acc hnd hacc
    cases g with
    | mk k v =>
      simp only [keysNodup, Bool.and_eq_true, Bool.not_eq_true'] at hnd
      simp only [List.foldl_cons]
      rw [dictInsert_notmem acc k v (hacc k v (List.mem_cons_self _ _))]
      rw [ih (acc ++ [(k, v)]) hnd.2]
      · simp
      · intro k' v' hmem
        rw [hasKey_append]
        have h1 : hasKey acc k' = false := hacc k' v' (List.mem_cons_of_mem _ hmem)
        have h2 : k ≠ k' := by
          intro h
          subst h
          exact absurd (mem_hasKey gs k v' hmem) (by simp [hnd.1])
        simp [hasKey, h1, h2]

/-- A dict built from nodup-keyed pairs is those pairs. -/
theorem dictOfPairs_nodup (fs : ObjFields) (h : keysNodup fs = true) :
    dictOfPairs fs = fs := by
  unfold dictOfPairs
  rw [dictOfPairs_go fs [] h (fun _ _ _ => rfl)]
  simp

/-! ## Serialize/parse round trip for whole documents -/

theorem skipWs_cons (c : Char) (l : List Char)
    (h : (c = ' ' || c = '\t' || c = '\n' || c = '\r') = false) :
    skipWs (c :: l) = c :: l := by
  simp only [skipWs, List.dropWhile_cons, h]
  rw [if_neg (by simp)]

theorem parseValue_null_p (f : Nat) (rest : List Char) :
    parseValue (f + 1) (dumps Json.null ++ rest) = some (Json.null, rest) := rfl

theorem parseValue_true_p (f : Nat) (rest : List Char) :
    parseValue (f + 1) (dumps (Json.bool true) ++ rest) = some (Json.bool true, rest) := rfl

theorem parseValue_false_p (f : Nat) (rest : List Char) :
    parseValue (f + 1) (dumps (Json.bool false) ++ rest) = some (Json.bool false, rest) := rfl

theorem parseValue_str_p (f : Nat) (s : String) (rest : List Char) :
    parseValue (f + 1) (dumps (Json.str s) ++ rest) = some (Json.str s, rest) := by
  show parseValue (f + 1) (('"' :: ((s.toList.map escapeChar).flatten ++ ['"'])) ++ rest) =
    some (Json.str s, rest)
  simp only [parseValue, List.cons_append, List.append_assoc, List.singleton_append]
  rw [skipWs_cons '"' _ (by decide)]
  simp only [parseStringBody_escape, Option.map_some]
  have hs : String.mk s.toList = s := by cases s; rfl
  rw [if_neg (by decide), if_neg (by decide), if_neg (by decide), if_pos trivial]
  simp [hs]

theorem followOk_sep (rest : List Char) (h : followOk rest) :
    ∀ c cs, rest = c :: cs →
      ¬(48 ≤ c.toNat ∧ c.toNat ≤ 57) ∧ c ≠ '.' ∧ c ≠ 'e' ∧ c ≠ 'E' := by
  intro c cs hc
  subst hc
  rcases h with h | h | h <;> subst h <;> exact ⟨by decide, by decide, by decide, by decide⟩

theorem parseValue_num_p (f : Nat) (n : Int) (rest : List Char) (h : followOk rest) :
    parseValue (f + 1) (dumps (Json.num n) ++ rest) = some (Json.num n, rest) := by
  obtain ⟨c, cs, hic, hhead⟩ : ∃ c cs, intRepr n = c :: cs ∧
      (c = '-' ∨ (48 ≤ c.toNat ∧ c.toNat ≤ 57)) := by
    unfold intRepr
    split
    · exact ⟨'-', _, rfl, Or.inl rfl⟩
    · obtain ⟨c, cs, hcs⟩ : ∃ c cs, natDigits n.toNat = c :: cs := by
        cases hq : natDigits n.toNat with
        | nil => exact absurd hq (natDigits_ne_nil _)
        | cons c cs => exact ⟨c, cs, rfl⟩
      exact ⟨c, cs, hcs, Or.inr (natDigits_all_digit n.toNat c (hcs ▸ List.mem_cons_self c cs))⟩
  obtain ⟨hn, ht, hf, hq, hb, ho, hw⟩ : c ≠ 'n' ∧ c ≠ 't' ∧ c ≠ 'f' ∧ c ≠ '"' ∧
      c ≠ '[' ∧ c ≠ '{' ∧ (c = ' ' || c = '\t' || c = '\n' || c = '\r') = false := by
    rcases hhead with rfl | hd
    · exact ⟨by decide, by decide, by decide, by decide, by decide, by decide, by decide⟩
    · refine ⟨?_, ?_, ?_, ?_, ?_, ?_, ?_⟩
      · intro he; rw [he] at hd; revert hd; decide
      · intro he; rw [he] at hd; revert hd; decide
      · intro he; rw [he] at hd; revert hd; decide
      · intro he; rw [he] at hd; revert hd; decide
      · intro he; rw [he] at hd; revert hd; decide
      · intro he; rw [he] at hd; revert hd; decide
      · simp only [Bool.or_eq_false_iff, decide_eq_false_iff_not]
        refine ⟨⟨⟨?_, ?_⟩, ?_⟩, ?_⟩ <;> (intro he; rw [he] at hd; revert hd; decide)
  show parseValue (f + 1) (intRepr n ++ rest) = some (Json.num n, rest)
  rw [hic, List.cons_append]
  simp only [parseValue]
  rw [skipWs_cons c _ hw]
  simp only [if_neg hn, if_neg ht, if_neg hf, if_neg hq, if_neg hb, if_neg ho]
  rw [← List.cons_append, ← hic]
  exact parseNumber_intRepr n rest (followOk_sep rest h)

theorem parseValue_arrnil_p (f : Nat) (rest : List Char) :
    parseValue (f + 1) (dumps (Json.arr []) ++ rest) = some (Json.arr [], rest) := rfl

theorem parseValue_objnil_p (f : Nat) (rest : List Char) :
    parseValue (f + 1) (dumps (Json.obj []) ++ rest) = some (Json.obj [], rest) := rfl

theorem fsize_pos (v : Json) : 1 ≤ fsize v := by
  cases v <;> simp only [fsize] <;> omega

def sepOf {α : Type} : List α → List Char
  | [] => []
  | _ :: _ => [',', ' ']

theorem dumpsElems_cons (x : Json) (xs : List Json) :
    dumpsElems (x :: xs) = dumps x ++ sepOf xs ++ dumpsElems xs := by
  cases xs <;> rfl

theorem dumpsFields_cons (k : String) (v : Json) (fs : ObjFields) :
    dumpsFields ((k, v) :: fs) =
      dumpString k.toList ++ [':', ' '] ++ dumps v ++ sepOf fs ++ dumpsFields fs := by
  cases fs <;> rfl

theorem parseValue_step_arr (f : Nat) (l : List Char) :
    parseValue (f + 1) ('[' :: l) =
      (match skipWs l with
       | ']' :: r => some (Json.arr [], r)
       | l2 => (parseElems f l2).map (fun p : List Json × List Char => (Json.arr p.1, p.2))) := rfl

theorem parseValue_step_obj (f : Nat) (l : List Char) :
    parseValue (f + 1) ('{' :: l) =
      (match skipWs l with
       | '}' :: r => some (Json.obj [], r)
       | l2 => (parseMembers f l2).map (fun p : ObjFields × List Char => (Json.obj (dictOfPairs p.1), p.2))) := rfl

theorem parseMembers_step (f : Nat) (l : List Char) :
    parseMembers (f + 1) ('"' :: l) =
      (match parseStringBody l with
       | none => none
       | some (k, r1) =>
         match skipWs r1 with
         | ':' :: r2 =>
           match parseValue f r2 with
           | none => none
           | some (v, r3) =>
             match skipWs r3 with
             | ',' :: r4 => (parseMembers f r4).map (fun p : ObjFields × List Char => ((String.mk k, v) :: p.1, p.2))
             | '}' :: r4 => some ([(String.mk k, v)], r4)
             | _ => none
         | _ => none) := rfl

theorem parseMembers_run (f : Nat) (s X : List Char) (v : Json) (r3 : List Char)
    (hv : parseValue f X = some (v, r3)) :
    parseMembers (f + 1) ('"' :: ((s.map escapeChar).flatten ++ '"' :: ':' :: ' ' :: X)) =
      (match skipWs r3 with
       | ',' :: r4 => (parseMembers f r4).map (fun p : ObjFields × List Char => ((String.mk s, v) :: p.1, p.2))
       | '}' :: r4 => some ([(String.mk s, v)], r4)
       | _ => none) := by
  rw [parseMembers_step]
  show (match parseStringBody ((s.map escapeChar).flatten ++ '"' :: (':' :: ' ' :: X)) with
       | none => none
       | some (k, r1) =>
         match skipWs r1 with
         | ':' :: r2 =>
           match parseValue f r2 with
           | none => none
           | some (v, r3) =>
             match skipWs r3 with
             | ',' :: r4 => (parseMembers f r4).map (fun p : ObjFields × List Char => ((String.mk k, v) :: p.1, p.2))
             | '}' :: r4 => some ([(String.mk k, v)], r4)
             | _ => none
         | _ => none) = _
  rw [parseStringBody_escape]
  show (match parseValue f (' ' :: X) with
       | none => none
       | some (v, r3) =>
         match skipWs r3 with
         | ',' :: r4 => (parseMembers f r4).map (fun p : ObjFields × List Char => ((String.mk s, v) :: p.1, p.2))
         | '}' :: r4 => some ([(String.mk s, v)], r4)
         | _ => none) = _
  rw [parseValue_space, hv]

theorem parse_dumps_master : ∀ fuel : Nat,
    (∀ v rest, fsize v ≤ fuel → wfJson v = true → followOk rest →
      parseValue fuel (dumps v ++ rest) = some (v, rest)) ∧
    (∀ xs rest, xs ≠ [] → fsizeElems xs + 1 ≤ fuel → wfList xs = true →
      parseElems fuel (dumpsElems xs ++ ']' :: rest) = some (xs, rest)) ∧
    (∀ fs rest, fs ≠ [] → fsizeFields fs + 1 ≤ fuel → wfFields fs = true →
      parseMembers fuel (dumpsFields fs ++ '}' :: rest) = some (fs, rest)) := by
  intro fuel
  induction fuel with
  | zero =>
    refine ⟨?_, ?_, ?_⟩
    · intro v rest hfs _ _
      exact absurd hfs (by have := fsize_pos v; omega)
    · intro xs rest _ hfs _
      exact absurd hfs (by omega)
    · intro fs rest _ hfs _
      exact absurd hfs (by omega)
  | succ f ih =>
    obtain ⟨ihV, ihE, ihM⟩ := ih
    refine ⟨?_, ?_, ?_⟩
    · intro v rest hfs hwf hfo
      cases v with
      | null => exact parseValue_null_p f rest
      | bool b =>
        cases b with
        | false => exact parseValue_false_p f rest
        | true => exact parseValue_true_p f rest
      | num n => exact parseValue_num_p f n rest hfo
      | str s => exact parseValue_str_p f s rest
      | arr xs =>
        cases xs with
        | nil => exact parseValue_arrnil_p f rest
        | cons x xs =>
          simp only [wfJson] at hwf
          simp only [fsize] at hfs
          obtain ⟨c, cs, hdx, hwsx, hbrx, _⟩ := dumps_head_spec x
          have hrw : dumps (Json.arr (x :: xs)) ++ rest =
              '[' :: (dumpsElems (x :: xs) ++ ']' :: rest) := by
            simp [dumps]
          have ht : dumpsElems (x :: xs) ++ ']' :: rest =
              c :: (cs ++ (sepOf xs ++ (dumpsElems xs ++ ']' :: rest))) := by
            simp [dumpsElems_cons, hdx]
          rw [hrw, parseValue_step_arr, ht, skipWs_cons c _ hwsx]
          split
          · rename_i heq
            rw [List.cons.injEq] at heq
            exact absurd heq.1 hbrx
          · rw [← ht, ihE (x :: xs) rest (by simp) (by omega) hwf]
            rfl
      | obj fs =>
        cases fs with
        | nil => exact parseValue_objnil_p f rest
        | cons g fs =>
          cases g with
          | mk k v =>
            simp only [wfJson, Bool.and_eq_true] at hwf
            simp only [fsize] at hfs
            have hrw : dumps (Json.obj ((k, v) :: fs)) ++ rest =
                '{' :: (dumpsFields ((k, v) :: fs) ++ '}' :: rest) := by
              simp [dumps]
            have ht : dumpsFields ((k, v) :: fs) ++ '}' :: rest =
                '"' :: ((k.toList.map escapeChar).flatten ++
                  ('"' :: ':' :: ' ' :: (dumps v ++
                    (sepOf fs ++ (dumpsFields fs ++ '}' :: rest))))) := by
              simp [dumpsFields_cons, dumpString]
            rw [hrw, parseValue_step_obj, ht, skipWs_cons '"' _ (by decide)]
            split
            · rename_i heq
              rw [List.cons.injEq] at heq
              exact absurd heq.1 (by decide)
            · rw [← ht, ihM ((k, v) :: fs) rest (by simp) (by omega) hwf.2]
              show some (Json.obj (dictOfPairs ((k, v) :: fs)), rest) =
                some (Json.obj ((k, v) :: fs), rest)
              rw [dictOfPairs_nodup _ hwf.1]
    · intro xs rest hne hfs hwl
      cases xs with
      | nil => exact absurd rfl hne
      | cons x xs =>
        simp only [wfList, Bool.and_eq_true] at hwl
        simp only [fsizeElems] at hfs
        have hfx : fsize x ≤ f := by omega
        cases xs with
        | nil =>
          have hl : dumpsElems [x] ++ ']' :: rest = dumps x ++ ']' :: rest := by
            simp [dumpsElems_cons, sepOf, dumpsElems]
          simp only [parseElems]
          rw [hl, ihV x (']' :: rest) hfx hwl.1 (Or.inr (Or.inl rfl))]
          rfl
        | cons y ys =>
          have hl : dumpsElems (x :: y :: ys) ++ ']' :: rest =
              dumps x ++ (',' :: ' ' :: (dumpsElems (y :: ys) ++ ']' :: rest)) := by
            simp [dumpsElems_cons, sepOf]
          simp only [parseElems]
          rw [hl, ihV x (',' :: ' ' :: (dumpsElems (y :: ys) ++ ']' :: rest)) hfx hwl.1 (Or.inl rfl)]
          show (parseElems f (' ' :: (dumpsElems (y :: ys) ++ ']' :: rest))).map
              (fun p => (x :: p.1, p.2)) = some (x :: y :: ys, rest)
          rw [parseElems_space,
            ihE (y :: ys) rest (by simp) (by simp only [fsizeElems] at hfs ⊢; omega) hwl.2]
          rfl
    · intro fs rest hne hfs hwff
      cases fs with
      | nil => exact absurd rfl hne
      | cons g fs =>
        cases g with
        | mk k v =>
          simp only [wfFields, Bool.and_eq_true] at hwff
          simp only [fsizeFields] at hfs
          have hfv : fsize v ≤ f := by omega
          have hsk : String.mk k.toList = k := by cases k; rfl
          cases fs with
          | nil =>
            have hl : dumpsFields [(k, v)] ++ '}' :: rest =
                '"' :: ((k.toList.map escapeChar).flatten ++
                  '"' :: ':' :: ' ' :: (dumps v ++ '}' :: rest)) := by
              simp [dumpsFields_cons, sepOf, dumpString, dumpsFields]
            rw [hl, parseMembers_run f k.toList (dumps v ++ '}' :: rest) v ('}' :: rest)
              (ihV v ('}' :: rest) hfv hwff.1 (Or.inr (Or.inr rfl))), hsk]
            rfl
          | cons g2 fs2 =>
            have hl : dumpsFields ((k, v) :: g2 :: fs2) ++ '}' :: rest =
                '"' :: ((k.toList.map escapeChar).flatten ++
                  '"' :: ':' :: ' ' :: (dumps v ++
                    (',' :: ' ' :: (dumpsFields (g2 :: fs2) ++ '}' :: rest)))) := by
              simp [dumpsFields_cons, sepOf, dumpString]
            rw [hl, parseMembers_run f k.toList
              (dumps v ++ (',' :: ' ' :: (dumpsFields (g2 :: fs2) ++ '}' :: rest))) v
              (',' :: ' ' :: (dumpsFields (g2 :: fs2) ++ '}' :: rest))
              (ihV v (',' :: ' ' :: (dumpsFields (g2 :: fs2) ++ '}' :: rest)) hfv hwff.1 (Or.inl rfl)), hsk]
            show (parseMembers f (' ' :: (dumpsFields (g2 :: fs2) ++ '}' :: rest))).map
                (fun p => ((k, v) :: p.1, p.2)) = some ((k, v) :: g2 :: fs2, rest)
            rw [parseMembers_space,
              ihM (g2 :: fs2) rest (by simp)
                (by simp only [fsizeFields] at hfs ⊢; omega) hwff.2]
            rfl

theorem intRepr_length_pos (n : Int) : 1 ≤ (intRepr n).length := by
  unfold intRepr
  split
  · simp
  · have h := natDigits_ne_nil n.toNat
    cases hq : natDigits n.toNat with
    | nil => exact absurd hq h
    | cons c cs => simp [hq]

theorem size_bound : ∀ n : Nat,
    (∀ v, fsize v ≤ n → fsize v + 1 ≤ 2 * (dumps v).length) ∧
    (∀ xs, fsizeElems xs ≤ n → fsizeElems xs + 1 ≤ 2 * (dumpsElems xs).length + 1) ∧
    (∀ fs, fsizeFields fs ≤ n → fsizeFields fs + 1 ≤ 2 * (dumpsFields fs).length + 1) := by
  intro n
  induction n with
  | zero =>
    refine ⟨?_, ?_, ?_⟩
    · intro v hv
      exact absurd hv (by have := fsize_pos v; omega)
    · intro xs hxs
      cases xs with
      | nil => simp [fsizeElems, dumpsElems]
      | cons x xs =>
        simp only [fsizeElems] at hxs
        exact absurd hxs (by omega)
    · intro fs hfs
      cases fs with
      | nil => simp [fsizeFields, dumpsFields]
      | cons g fs =>
        cases g with
        | mk k v =>
          simp only [fsizeFields] at hfs
          exact absurd hfs (by omega)
  | succ n ih =>
    obtain ⟨ihV, ihE, ihF⟩ := ih
    refine ⟨?_, ?_, ?_⟩
    · intro v hv
      cases v with
      | null => simp [fsize, dumps]
      | bool b => cases b <;> simp [fsize, dumps]
      | num m =>
        have := intRepr_length_pos m
        simp only [fsize]
        show 1 + 1 ≤ 2 * (intRepr m).length
        omega
      | str s =>
        simp only [fsize]
        show 1 + 1 ≤ 2 * (dumpString s.toList).length
        simp only [dumpString, List.length_cons, List.length_append]
        omega
      | arr xs =>
        simp only [fsize] at hv ⊢
        have hE := ihE xs (by omega)
        simp only [dumps, List.length_cons, List.length_append, List.length_singleton]
        omega
      | obj fs =>
        simp only [fsize] at hv ⊢
        have hF := ihF fs (by omega)
        simp only [dumps, List.length_cons, List.length_append, List.length_singleton]
        omega
    · intro xs hxs
      cases xs with
      | nil => simp [fsizeElems, dumpsElems]
      | cons x xs =>
        simp only [fsizeElems] at hxs ⊢
        have hx := ihV x (by omega)
        have hE := ihE xs (by omega)
        rw [dumpsElems_cons]
        simp only [List.length_append]
        cases xs with
        | nil =>
          simp only [sepOf, dumpsElems, List.length_nil, fsizeElems] at *
          omega
        | cons y ys =>
          simp only [sepOf, List.length_cons, List.length_nil] at *
          omega
    · intro fs hfs
      cases fs with
      | nil => simp [fsizeFields, dumpsFields]
      | cons g fs =>
        cases g with
        | mk k v =>
          simp only [fsizeFields] at hfs ⊢
          have hx := ihV v (by omega)
          have hF := ihF fs (by omega)
          rw [dumpsFields_cons]
          simp only [List.length_append, dumpString, List.length_cons]
          cases fs with
          | nil =>
            simp only [sepOf, dumpsFields, List.length_nil, fsizeFields] at *
            omega
          | cons g2 fs2 =>
            simp only [sepOf, List.length_cons, List.length_nil] at *
            omega

theorem jsonParse_dumps (v : Json) (hwf : wfJson v = true) :
    jsonParse (dumps v) = some v := by
  unfold jsonParse
  have hb : fsize v ≤ 2 * (dumps v).length + 2 := by
    have := (size_bound (fsize v)).1 v le_rfl
    omega
  have h := (parse_dumps_master (2 * (dumps v).length + 2)).1 v [] hb hwf trivial
  rw [List.append_nil] at h
  rw [h]
  simp [skipWs]

theorem parse_request_dumps (fields : ObjFields)
    (hwf : wfJson (Json.obj fields) = true) :
    parse_request (utf8Encode (dumps (Json.obj fields))) = some fields := by
  unfold parse_request
  rw [utf8Decode_encode_ascii _ (dumps_ascii _)]
  show (match jsonParse (dumps (Json.obj fields)) with
       | none => none
       | some (Json.obj fields) => some fields
       | some _ => none) = some fields
  rw [jsonParse_dumps _ hwf]

theorem write_frame_frameHeader (v : Json) :
    write_frame v =
      frameHeader (utf8Encode (dumps v)).length ++ utf8Encode (dumps v) := by
  simp [write_frame, frameHeader, digitsBytes]

/-- C9: writing a JSON-object response with `write_frame` and reading the
resulting loopback stream back with `read_frame` followed by
`parse_request` recovers a frame holding exactly the written payload and
a request object JSON-equal to the original response, provided the
payload is within the 1 MiB body bound. -/
theorem C9_write_then_read_roundtrip (v : Json)
    (hobj : v.isObj = true) (hwf : wfJson v = true)
    (hsize : (utf8Encode (dumps v)).length ≤ MAX_BODY_BYTES) :
    read_frame (write_frame v) = (FrameOutcome.frame (utf8Encode (dumps v)), []) ∧
    parse_request (utf8Encode (dumps v)) = some v.fieldsOf := by
  cases v with
  | null => simp [Json.isObj] at hobj
  | bool b => simp [Json.isObj] at hobj
  | num n => simp [Json.isObj] at hobj
  | str s => simp [Json.isObj] at hobj
  | arr xs => simp [Json.isObj] at hobj
  | obj fields =>
    constructor
    · rw [write_frame_frameHeader]
      have hlen : (utf8Encode (dumps (Json.obj fields))).length =
          (dumps (Json.obj fields)).length := utf8Encode_length_ascii _ (dumps_ascii _)
      have hpos : 0 < (utf8Encode (dumps (Json.obj fields))).length := by
        rw [hlen]
        show 0 < ('\x7b' :: (dumpsFields fields ++ ['\x7d'])).length
        simp
      have hdig :
          (natDigits (utf8Encode (dumps (Json.obj fields))).length).length + 20 ≤
            MAX_HEADER_BYTES := by
        have h7 : (natDigits (utf8Encode (dumps (Json.obj fields))).length).length ≤ 7 :=
          natDigits_len_le 7 _ (by norm_num)
            (by simp only [MAX_BODY_BYTES] at hsize; omega)
        simp only [MAX_HEADER_BYTES]
        omega
      rw [read_frame_frameHeader _ _ hpos hdig]
      rw [if_neg (by omega), if_pos le_rfl]
      simp
    · exact parse_request_dumps fields hwf

theorem C9_write_then_read_roundtrip_witness :
    read_frame (write_frame (Json.obj [("jsonrpc", Json.str "2.0"), ("id", Json.num 1),
        ("result", Json.obj [])])) =
      (FrameOutcome.frame (utf8Encode (dumps (Json.obj [("jsonrpc", Json.str "2.0"),
        ("id", Json.num 1), ("result", Json.obj [])]))), []) ∧
    parse_request (utf8Encode (dumps (Json.obj [("jsonrpc", Json.str "2.0"),
        ("id", Json.num 1), ("result", Json.obj [])]))) =
      some (Json.obj [("jsonrpc", Json.str "2.0"), ("id", Json.num 1),
        ("result", Json.obj [])]).fieldsOf :=
  C9_write_then_read_roundtrip
    (Json.obj [("jsonrpc", Json.str "2.0"), ("id", Json.num 1), ("result", Json.obj [])])
    (by decide) (by decide) (by decide)

end Provider
